import Mathlib

/-!
Shallow embedding of the telesync client core (`src/py/telesync/core.py`):
the Python value universe, the `Data` descriptor and its `dump` encoding,
key guards, `Ref` navigation/assignment, the `PageBase` mutation buffer
(`add`, `_track`, `_diff`, `drop`, `__delitem__`), and the JSON
`marshal`/`unmarshal` pair.

Modelling conventions:
- Python values are the inductive `PyVal`.  `PyVal.data` is a `telesync.Data`
  instance; `PyVal.dumper r` is any other object exposing a zero-argument
  `dump` method returning `r` (the card builders); `PyVal.obj` is an opaque
  object with no `dump` attribute.  Numbers are modelled as `Int`
  (float formatting is outside the embedding's scope).
- Python `dict`s are association lists in insertion order with distinct keys;
  `del d[k]` / `d[k] = v` are `dictDel` / `dictSet`.
- `raise` is `Except.error`; `KeyError`/`ValueError` become `Err.keyError`/
  `Err.valueError` carrying the exact message string from the source.
-/

namespace Telesync

/-- The universe of Python values that can reach the telesync core. -/
inductive PyVal where
  | none
  | bool (b : Bool)
  | int (n : Int)
  | str (s : String)
  | list (xs : List PyVal)
  | tuple (xs : List PyVal)
  | dict (kvs : List (String × PyVal))
  | data (fields : PyVal) (size : Int) (dat : Option PyVal)
  | dumper (res : PyVal)
  | obj (id : Nat)
  deriving Repr

/-- Python truthiness (`if d:`) for the values in our universe. -/
def pyTruthy : PyVal → Bool
  | .none => false
  | .bool b => b
  | .int n => n != 0
  | .str s => s != ""
  | .list xs => !xs.isEmpty
  | .tuple xs => !xs.isEmpty
  | .dict kvs => !kvs.isEmpty
  | .data _ _ _ => true
  | .dumper _ => true
  | .obj _ => true

/-- `isinstance(x, Data)`. -/
def PyVal.isData : PyVal → Bool
  | .data _ _ _ => true
  | _ => false

/-- `isinstance(x, dict)`. -/
def PyVal.isDict : PyVal → Bool
  | .dict _ => true
  | _ => false

/-- The empty-data branch of `Data.dump` (the `else:` of `if d:`). -/
def dataDumpEmpty (f : PyVal) (n : Int) : PyVal :=
  if n = 0 then .dict [("m", .dict [("f", f)])]
  else if n < 0 then .dict [("c", .dict [("f", f), ("n", .int (-n))])]
  else .dict [("f", .dict [("f", f), ("n", .int n)])]

/-- `Data.dump` from core.py lines 241-260: with truthy data, a dict payload
encodes as a map buffer, otherwise sign of `size` picks circular/fixed; with
falsy data only the field list and an allocation hint are sent. -/
def dataDump (f : PyVal) (n : Int) (dat : Option PyVal) : PyVal :=
  match dat with
  | Option.some d =>
    if pyTruthy d then
      match d with
      | .dict kvs => .dict [("m", .dict [("f", f), ("d", .dict kvs)])]
      | _ =>
        if n < 0 then .dict [("c", .dict [("f", f), ("d", d)])]
        else .dict [("f", .dict [("f", f), ("d", d)])]
    else dataDumpEmpty f n
  | Option.none => dataDumpEmpty f n

/-- `_can_dump(x)`: does `x` expose a callable `dump` attribute? -/
def canDump : PyVal → Bool
  | .data _ _ _ => true
  | .dumper _ => true
  | _ => false

/-- `x.dump()` for a dump-capable `x` (unreachable otherwise). -/
def objDump : PyVal → PyVal
  | .data f n d => dataDump f n d
  | .dumper r => r
  | v => v

/-- `_dump(xs)` from core.py lines 187-195: recursively expand sequences and
mappings, call `dump()` on dump-capable objects (comprehensions turn tuples
into lists), leave everything else unchanged. -/
def pyDump : PyVal → PyVal
  | .list xs => .list (xs.attach.map fun x => pyDump x.1)
  | .tuple xs => .list (xs.attach.map fun x => pyDump x.1)
  | .dict kvs => .dict (kvs.attach.map fun kv => (kv.1.1, pyDump kv.1.2))
  | .data f n d => dataDump f n d
  | .dumper r => r
  | .none => .none
  | .bool b => .bool b
  | .int n => .int n
  | .str s => .str s
  | .obj i => .obj i
termination_by v => sizeOf v
decreasing_by
  all_goals simp_wf
  all_goals try (have hlt := List.sizeOf_lt_of_mem x.2; omega)
  all_goals
    obtain ⟨⟨a, b⟩, hm⟩ := kv
    have h := List.sizeOf_lt_of_mem hm
    simp only [Prod.mk.sizeOf_spec] at h ⊢
    omega

/-- A value used as a key: a Python `str`, `int`, or anything else. -/
inductive PyKey where
  | str (s : String)
  | int (n : Int)
  | other
  deriving Repr, DecidableEq

/-- Exceptions raised by the core, tagged with their Python class and the
exact message from the source. -/
inductive Err where
  | keyError (msg : String)
  | valueError (msg : String)
  | typeError (msg : String)
  deriving Repr, DecidableEq

/-- `_guard_key` from core.py lines 117-123: strings may not contain a space,
any `int` passes, anything else is rejected. -/
def guardKey : PyKey → Except Err Unit
  | .str s =>
    if s.data.contains ' ' then .error (.keyError "keys cannot contain spaces") else .ok ()
  | .int _ => .ok ()
  | .other => .error (.keyError "invalid key type: want str or int")

/-- `_is_primitive` from core.py line 87. -/
def isPrimitive : PyVal → Bool
  | .none => true
  | .bool _ => true
  | .str _ => true
  | .int _ => true
  | _ => false

/-- `_guard_primitive` from core.py lines 90-92 (defined in the source but
never invoked on the `Ref` assignment path). -/
def guardPrimitive (x : PyVal) : Except Err Unit :=
  if isPrimitive x then .ok () else .error (.valueError "value must be a primitive")

/-- Python `str(k)` for key values. -/
def keyStr : PyKey → String
  | .str s => s
  | .int n => toString n
  | .other => "<object>"

/-- `_key_sep`: the space character joining path segments. -/
def keySep : String := " "

/-- `del d[k]` on a Python dict (keys are unique, so filtering is removal). -/
def dictDel (kvs : List (String × PyVal)) (k : String) : List (String × PyVal) :=
  kvs.filter fun kv => kv.1 ≠ k

/-- `d[k] = v` on a Python dict: replace in place if present, else append. -/
def dictSet (kvs : List (String × PyVal)) (k : String) (v : PyVal) :
    List (String × PyVal) :=
  if kvs.any fun kv => kv.1 == k then
    kvs.map fun kv => if kv.1 == k then (k, v) else kv
  else kvs ++ [(k, v)]

/-- `_set_op(o, k, v)` from core.py lines 172-180: guard the key, extend the
ref's path, and build either a buffer op (`v.dump()` with `k` added) or a
plain `{k, v}` set op. -/
def setOp (refKey : String) (k : PyKey) (v : PyVal) : Except Err PyVal :=
  match guardKey k with
  | .error e => .error e
  | .ok _ =>
    let kk := refKey ++ keySep ++ keyStr k
    match v with
    | .data f n d =>
      match dataDump f n d with
      | .dict kvs => .ok (.dict (dictSet kvs "k" (.str kk)))
      | w => .ok w
    | _ => .ok (.dict [("k", .str kk), ("v", v)])

/-- `Ref.__getattr__` (core.py 208-210): guard the attribute name, return the
extended path of the new `Ref`; no page state is touched. -/
def refGetAttr (path : String) (key : String) : Except Err String :=
  match guardKey (.str key) with
  | .error e => .error e
  | .ok _ => .ok (path ++ keySep ++ key)

/-- `Ref.__getitem__` (core.py 212-214): same with `str(key)` conversion. -/
def refGetItem (path : String) (k : PyKey) : Except Err String :=
  match guardKey k with
  | .error e => .error e
  | .ok _ => .ok (path ++ keySep ++ keyStr k)

/-- The op produced by `Ref.__setattr__` / `Ref.__setitem__` (core.py
216-224): raw `Data` values are rejected, otherwise the value is dumped and
`_set_op` builds the set op. -/
def refSetOp (path : String) (k : PyKey) (v : PyVal) : Except Err PyVal :=
  if v.isData then .error (.valueError "Data instances cannot be used in assignments.")
  else setOp path k (pyDump v)

/-- The shared body of `Ref.__setattr__` / `Ref.__setitem__`: build the set
op and append it to the owning page's `_changes` buffer (on error, nothing
is appended). -/
def refSet (changes : List PyVal) (path : String) (k : PyKey) (v : PyVal) :
    Except Err (List PyVal) :=
  match refSetOp path k v with
  | .error e => .error e
  | .ok op => .ok (changes ++ [op])

/-- The scanning loop of `PageBase.add` (core.py 360-365): walk the property
list, recording `(key, len(bufs))` and `v.dump()` for every `Data`-valued
property; `idx` is the running `len(bufs)`. -/
def scanCard : List (String × PyVal) → Nat → List (String × Nat) × List PyVal
  | [], _ => ([], [])
  | (k, v) :: rest, idx =>
    match v with
    | .data f n d =>
      let r := scanCard rest (idx + 1)
      ((k, idx) :: r.1, dataDump f n d :: r.2)
    | _ => scanCard rest idx

/-- The displacement loop of `PageBase.add` (core.py 367-369):
`del props[k]; props['~' + k] = idx` for each recorded Data property. -/
def displace (props : List (String × PyVal)) (ds : List (String × Nat)) :
    List (String × PyVal) :=
  ds.foldl (fun p ki => dictSet (dictDel p ki.1) ("~" ++ ki.1) (.int ki.2)) props

/-- Specification-side description of the displaced markers: `~k ↦ i` for
the extracted Data keys in order, indices counting from `i`. -/
def tildeMarkers : List String → Nat → List (String × PyVal)
  | [], _ => []
  | k :: ks, i => ("~" ++ k, .int i) :: tildeMarkers ks (i + 1)

/-- The validation and op construction of `PageBase.add(key, card)` (core.py
336-376): validate the key and card, extract `Data`-valued properties into a
buffers list, build the add-card op (with `b` only when buffers exist) and
the key the resulting `Ref` is rooted at. -/
def addOp (key : PyVal) (card : PyVal) : Except Err (PyVal × String) :=
  match key with
  | .none => .error (.valueError "card must have a key")
  | .str s =>
    let props? : Option PyVal :=
      match card with
      | .dict kvs => some (.dict kvs)
      | _ => if canDump card then some (pyDump card) else Option.none
    match props? with
    | some (.dict kvs) =>
      let scanned := scanCard kvs 0
      let props := displace kvs scanned.1
      let op :=
        if scanned.2.length > 0 then
          PyVal.dict [("k", .str s), ("d", .dict props), ("b", .list scanned.2)]
        else PyVal.dict [("k", .str s), ("d", .dict props)]
      .ok (op, s)
    | _ => .error (.valueError "card must be dict or implement .dump() -> dict")
  | _ => .error (.valueError "key must be str")

/-- `PageBase.add(key, card)`: on success the op is tracked (appended to
`_changes`) and the root key of the returned `Ref` accompanies the new
buffer; on failure nothing is appended. -/
def pageAdd (changes : List PyVal) (key : PyVal) (card : PyVal) :
    Except Err (List PyVal × String) :=
  match addOp key card with
  | .ok (op, s) => .ok (changes ++ [op], s)
  | .error e => .error e

/-- `PageBase._track` (core.py 378-379): append one op to `_changes`. -/
def pageTrack (changes : List PyVal) (op : PyVal) : List PyVal :=
  changes ++ [op]

/-- `PageBase.drop` (core.py 388-392): track the empty drop-page op. -/
def pageDrop (changes : List PyVal) : List PyVal :=
  pageTrack changes (.dict [])

/-- `PageBase.__delitem__` (core.py 402-403): track a `{k: key}` op. -/
def pageDelItem (changes : List PyVal) (key : String) : List PyVal :=
  pageTrack changes (.dict [("k", .str key)])

/-- `PageBase.__getitem__` (core.py 397-400): a non-str key raises, else a
`Ref` rooted at `key` is returned (its path is the key itself). -/
def pageGetItem (key : PyVal) : Except Err String :=
  match key with
  | .str s => .ok s
  | _ => .error (.valueError "key must be str")

/-!
## JSON serialization

`marshal` is `json.dumps(d, allow_nan=False, separators=(',', ':'))` from
core.py 628-635 (with the default `ensure_ascii=True`, so every character
outside `0x20..0x7e` is `\uXXXX`-escaped, astral characters as surrogate
pairs); `unmarshal` is `json.loads` from 638-645.  Numbers are the `int`
fragment; a value that `json.dumps` cannot serialize (a `Data` instance,
a builder, an opaque object) makes `marshal` return `Option.none`
(Python: `TypeError`), and a JSON text `json.loads` would turn into a
`float` makes `unmarshal` return `Option.none`.
-/

/-- Lower-case hex digit, as Python's `'\\u%04x'` formatting. -/
def hexDigitChar (n : Nat) : Char :=
  if n < 10 then Char.ofNat (48 + n) else Char.ofNat (87 + n)

/-- `\uXXXX` escape of a code unit below `0x10000`. -/
def uEscape4 (v : Nat) : List Char :=
  ['\\', 'u', hexDigitChar (v / 4096 % 16), hexDigitChar (v / 256 % 16),
   hexDigitChar (v / 16 % 16), hexDigitChar (v % 16)]

/-- `json.dumps` (ensure_ascii) escaping of a single character: `"` and `\`
are backslash-escaped, printable ASCII passes through, the five C escapes
get their short forms, everything else becomes `\uXXXX` (astral characters
as a surrogate pair). -/
def escChar (c : Char) : List Char :=
  if c = '"' then ['\\', '"']
  else if c = '\\' then ['\\', '\\']
  else if 0x20 ≤ c.toNat ∧ c.toNat ≤ 0x7e then [c]
  else if c = '\x08' then ['\\', 'b']
  else if c = '\x09' then ['\\', 't']
  else if c = '\x0a' then ['\\', 'n']
  else if c = '\x0c' then ['\\', 'f']
  else if c = '\x0d' then ['\\', 'r']
  else if c.toNat < 0x10000 then uEscape4 c.toNat
  else
    uEscape4 (0xd800 + (c.toNat - 0x10000) / 0x400) ++
      uEscape4 (0xdc00 + (c.toNat - 0x10000) % 0x400)

/-- A JSON string literal: quote, escaped characters, quote. -/
def renderString (s : String) : List Char :=
  '"' :: s.data.flatMap escChar ++ ['"']

/-- Little-endian decimal digits of `n` (empty for 0); the first argument is
fuel (`n` itself suffices) making the definition structural. -/
def natDigitsAux : Nat → Nat → List Nat
  | _, 0 => []
  | 0, _ + 1 => []
  | fuel + 1, n + 1 => ((n + 1) % 10) :: natDigitsAux fuel ((n + 1) / 10)

/-- Little-endian decimal digits of `n`. -/
def natDigitsRev (n : Nat) : List Nat := natDigitsAux n n

/-- Decimal digit character. -/
def digitChar (d : Nat) : Char := Char.ofNat (48 + d)

/-- Python `str` of a nonnegative integer. -/
def renderNat (n : Nat) : List Char :=
  if n = 0 then ['0'] else (natDigitsRev n).reverse.map digitChar

/-- Python `str` of an integer (what `json.dumps` emits for `int`). -/
def renderInt (i : Int) : List Char :=
  if i < 0 then '-' :: renderNat (-i).toNat else renderNat i.toNat

mutual
/-- The serializer behind `marshal`: compact separators, insertion-ordered
object members, `Option.none` where `json.dumps` raises `TypeError`
(tuples serialize as arrays). -/
def renderVal : PyVal → Option (List Char)
  | .none => some ['n', 'u', 'l', 'l']
  | .bool true => some ['t', 'r', 'u', 'e']
  | .bool false => some ['f', 'a', 'l', 's', 'e']
  | .int n => some (renderInt n)
  | .str s => some (renderString s)
  | .list xs => do
      let body ← renderItems xs
      pure ('[' :: body ++ [']'])
  | .tuple xs => do
      let body ← renderItems xs
      pure ('[' :: body ++ [']'])
  | .dict kvs => do
      let body ← renderPairs kvs
      pure ('{' :: body ++ ['}'])
  | .data _ _ _ => Option.none
  | .dumper _ => Option.none
  | .obj _ => Option.none

/-- Array elements joined by `,` (the `item_separator`). -/
def renderItems : List PyVal → Option (List Char)
  | [] => some []
  | [x] => renderVal x
  | x :: y :: rest => do
      let cx ← renderVal x
      let r ← renderItems (y :: rest)
      pure (cx ++ ',' :: r)

/-- Object members `"key":value` joined by `,` (the `key_separator` is `:`). -/
def renderPairs : List (String × PyVal) → Option (List Char)
  | [] => some []
  | [(k, v)] => do
      let cv ← renderVal v
      pure (renderString k ++ ':' :: cv)
  | (k, v) :: p :: rest => do
      let cv ← renderVal v
      let r ← renderPairs (p :: rest)
      pure (renderString k ++ ':' :: cv ++ ',' :: r)
end

/-- `marshal(d)` (core.py 628-635): `Option.none` models the `TypeError`
`json.dumps` raises on a non-serializable object. -/
def marshal (v : PyVal) : Option String :=
  (renderVal v).map fun cs => String.mk cs

/-- JSON whitespace. -/
def isWs (c : Char) : Bool := c = ' ' || c = '\t' || c = '\n' || c = '\r'

/-- Skip leading JSON whitespace. -/
def skipWs : List Char → List Char
  | c :: rest => if isWs c then skipWs rest else c :: rest
  | [] => []

/-- Value of a hex digit character. -/
def hexVal (c : Char) : Option Nat :=
  if '0' ≤ c ∧ c ≤ '9' then some (c.toNat - 48)
  else if 'a' ≤ c ∧ c ≤ 'f' then some (c.toNat - 87)
  else if 'A' ≤ c ∧ c ≤ 'F' then some (c.toNat - 55)
  else Option.none

/-- Combine four hex digit characters. -/
def hex4 (a b c d : Char) : Option Nat := do
  let va ← hexVal a
  let vb ← hexVal b
  let vc ← hexVal c
  let vd ← hexVal d
  pure (((va * 16 + vb) * 16 + vc) * 16 + vd)

/-- Decode one short escape character (`json.loads` BACKSLASH table). -/
def unescape1 (e : Char) : Option Char :=
  if e = '"' then some '"'
  else if e = '\\' then some '\\'
  else if e = '/' then some '/'
  else if e = 'b' then some '\x08'
  else if e = 'f' then some '\x0c'
  else if e = 'n' then some '\x0a'
  else if e = 'r' then some '\x0d'
  else if e = 't' then some '\x09'
  else Option.none

/-- One step of `py_scanstring`: `go` parses the remainder after the
characters this step consumes.  Surrogate pairs recombine into one
character; a lone surrogate (which Python would keep as an unpaired
surrogate code point, unrepresentable in a Lean `Char`) fails; strict mode
rejects raw control characters. -/
def parseStringGo (go : List Char → Option (List Char × List Char))
    (cs : List Char) : Option (List Char × List Char) :=
  match cs with
  | [] => Option.none
  | c :: rest =>
    if c = '"' then some ([], rest)
    else if c = '\\' then
      match rest with
      | [] => Option.none
      | e :: rest2 =>
        if e = 'u' then
          match rest2 with
          | a :: b :: c2 :: d :: rest3 =>
            (hex4 a b c2 d).bind fun v =>
              if 0xd800 ≤ v ∧ v < 0xdc00 then
                match rest3 with
                | e2 :: u2 :: a2 :: b2 :: c3 :: d2 :: rest5 =>
                  if e2 = '\\' ∧ u2 = 'u' then
                    (hex4 a2 b2 c3 d2).bind fun w =>
                      if 0xdc00 ≤ w ∧ w < 0xe000 then
                        (go rest5).map fun sr =>
                          (Char.ofNat
                            (0x10000 + (v - 0xd800) * 0x400 + (w - 0xdc00)) :: sr.1,
                            sr.2)
                      else Option.none
                  else Option.none
                | _ => Option.none
              else if 0xdc00 ≤ v ∧ v < 0xe000 then Option.none
              else (go rest3).map fun sr => (Char.ofNat v :: sr.1, sr.2)
          | _ => Option.none
        else
          (unescape1 e).bind fun c1 =>
            (go rest2).map fun sr => (c1 :: sr.1, sr.2)
    else if c.toNat < 0x20 then Option.none
    else (go rest).map fun sr => (c :: sr.1, sr.2)

/-- Fueled `py_scanstring` loop; every step consumes at least one
character, so fuel equal to the input length never runs out. -/
def parseStringRestF : Nat → List Char → Option (List Char × List Char)
  | 0 => fun _ => Option.none
  | fuel + 1 => parseStringGo (parseStringRestF fuel)

/-- `py_scanstring`: parse the remainder of a string literal after the
opening quote (an empty remainder is an unterminated string). -/
def parseStringRest (cs : List Char) : Option (List Char × List Char) :=
  parseStringRestF cs.length cs

/-- Accumulate decimal digits (`acc` is the value so far). -/
def parseDigitsAux : List Char → Nat → Nat × List Char
  | c :: rest, acc =>
    if c.isDigit then parseDigitsAux rest (acc * 10 + (c.toNat - 48))
    else (acc, c :: rest)
  | [], acc => (acc, [])

/-- The integer-part token of the JSON number grammar
(`0 | [1-9][0-9]*`): a leading `0` is a complete token by itself. -/
def parseUIntTok : List Char → Option (Nat × List Char)
  | [] => Option.none
  | c :: rest =>
    if c = '0' then some (0, rest)
    else if c.isDigit then some (parseDigitsAux rest (c.toNat - 48))
    else Option.none

/-- `json.loads` would continue into a fraction/exponent and produce a
`float`, which is outside this embedding: fail there. -/
def floatGuard (v : Int) (r : List Char) : Option (PyVal × List Char) :=
  match r with
  | c :: _ => if c = '.' ∨ c = 'e' ∨ c = 'E' then Option.none else some (.int v, r)
  | [] => some (.int v, [])

/-- Parse a JSON number (the `int` fragment). -/
def parseNum : List Char → Option (PyVal × List Char)
  | [] => Option.none
  | c :: rest =>
    if c = '-' then
      match parseUIntTok rest with
      | some (n, r) => floatGuard (-(n : Int)) r
      | Option.none => Option.none
    else
      match parseUIntTok (c :: rest) with
      | some (n, r) => floatGuard (n : Int) r
      | Option.none => Option.none

/-- One step of the recursive-descent value parser: `items`/`pairs` parse
array elements and object members (given their own element-count fuel). -/
def parseValGo (items : Nat → List Char → Option (List PyVal × List Char))
    (pairs : Nat → List Char → Option (List (String × PyVal) × List Char))
    (cs : List Char) : Option (PyVal × List Char) :=
  match skipWs cs with
  | [] => Option.none
  | c :: rest =>
    if c = 'n' then
      match rest with
      | 'u' :: 'l' :: 'l' :: r => some (.none, r)
      | _ => Option.none
    else if c = 't' then
      match rest with
      | 'r' :: 'u' :: 'e' :: r => some (.bool true, r)
      | _ => Option.none
    else if c = 'f' then
      match rest with
      | 'a' :: 'l' :: 's' :: 'e' :: r => some (.bool false, r)
      | _ => Option.none
    else if c = '"' then
      (parseStringRest rest).map fun sr => (.str (String.mk sr.1), sr.2)
    else if c = '[' then
      match skipWs rest with
      | [] => Option.none
      | c2 :: r2 =>
        if c2 = ']' then some (.list [], r2)
        else (items ((c2 :: r2).length + 1) (c2 :: r2)).map fun xr =>
          (.list xr.1, xr.2)
    else if c = '\x7b' then
      match skipWs rest with
      | [] => Option.none
      | c2 :: r2 =>
        if c2 = '\x7d' then some (.dict [], r2)
        else (pairs ((c2 :: r2).length + 1) (c2 :: r2)).map fun kr =>
          (.dict kr.1, kr.2)
    else parseNum (c :: rest)

/-- One step of the array-element loop (`value (, value)* ]`): `val` parses
one value, `next` the remaining elements. -/
def parseItemsGo (val : List Char → Option (PyVal × List Char))
    (next : List Char → Option (List PyVal × List Char))
    (cs : List Char) : Option (List PyVal × List Char) :=
  (val cs).bind fun vr =>
    match skipWs vr.2 with
    | [] => Option.none
    | c :: r2 =>
      if c = ',' then (next r2).map fun vs => (vr.1 :: vs.1, vs.2)
      else if c = ']' then some ([vr.1], r2)
      else Option.none

/-- One step of the object-member loop (`"key" : value (, ...)* \x7d`). -/
def parsePairsGo (val : List Char → Option (PyVal × List Char))
    (next : List Char → Option (List (String × PyVal) × List Char))
    (cs : List Char) : Option (List (String × PyVal) × List Char) :=
  match skipWs cs with
  | [] => Option.none
  | c :: rest =>
    if c = '"' then
      (parseStringRest rest).bind fun kr =>
        match skipWs kr.2 with
        | [] => Option.none
        | c2 :: r2 =>
          if c2 = ':' then
            (val r2).bind fun vr =>
              match skipWs vr.2 with
              | [] => Option.none
              | c3 :: r4 =>
                if c3 = ',' then
                  (next r4).map fun ks => ((String.mk kr.1, vr.1) :: ks.1, ks.2)
                else if c3 = '\x7d' then some ([(String.mk kr.1, vr.1)], r4)
                else Option.none
          else Option.none
    else Option.none

/-- The fueled array-element loop: the fuel bounds the element count (the
remaining input length suffices, as every element consumes a character). -/
def parseItemsF (val : List Char → Option (PyVal × List Char)) :
    Nat → List Char → Option (List PyVal × List Char)
  | 0 => fun _ => Option.none
  | lfuel + 1 => parseItemsGo val (parseItemsF val lfuel)

/-- The fueled object-member loop. -/
def parsePairsF (val : List Char → Option (PyVal × List Char)) :
    Nat → List Char → Option (List (String × PyVal) × List Char)
  | 0 => fun _ => Option.none
  | lfuel + 1 => parsePairsGo val (parsePairsF val lfuel)

/-- The recursive-descent value parser behind `unmarshal`.  The fuel bounds
nesting depth; `unmarshal` passes `length + 1`, which every input respects
since each nesting level consumes at least one character. -/
def parseVal : Nat → List Char → Option (PyVal × List Char)
  | 0 => fun _ => Option.none
  | dfuel + 1 =>
    parseValGo (parseItemsF (parseVal dfuel)) (parsePairsF (parseVal dfuel))

/-- `unmarshal(s)` (core.py 638-645): parse one value, then require only
whitespace to remain (`json.loads` raises `Extra data` otherwise);
`Option.none` models `JSONDecodeError`. -/
def unmarshal (s : String) : Option PyVal :=
  match parseVal (s.length + 1) s.data with
  | some (v, rest) => if (skipWs rest).isEmpty then some v else Option.none
  | Option.none => Option.none

/-- `PageBase._diff` (core.py 381-386): an empty buffer yields the no-diff
sentinel (`None`) and is left untouched; otherwise the op list is wrapped as
`{d: ops}`, marshaled, and the buffer is cleared.  The result pairs the
returned value (or the raised error, if marshaling fails) with the buffer's
final contents. -/
def pageDiff (changes : List PyVal) : Except Err (Option String) × List PyVal :=
  if changes.length = 0 then (.ok Option.none, changes)
  else
    match marshal (.dict [("d", .list changes)]) with
    | some s => (.ok (some s), [])
    | Option.none => (.error (.typeError "not JSON serializable"), changes)

/-- One page mutation, as issued by application code: `add(key, card)`, a
`Ref` assignment, `del page[key]`, or `page.drop()`. -/
inductive Mut where
  | add (key : PyVal) (card : PyVal)
  | set (path : String) (k : PyKey) (v : PyVal)
  | del (key : String)
  | drop

/-- Apply one mutation to the page's `_changes` buffer. -/
def applyMut (changes : List PyVal) : Mut → Except Err (List PyVal)
  | .add key card =>
    match pageAdd changes key card with
    | .ok r => .ok r.1
    | .error e => .error e
  | .set path k v => refSet changes path k v
  | .del key => .ok (pageDelItem changes key)
  | .drop => .ok (pageDrop changes)

/-- The single op a mutation contributes (independent of the buffer). -/
def mutOp : Mut → Except Err PyVal
  | .add key card =>
    match addOp key card with
    | .ok r => .ok r.1
    | .error e => .error e
  | .set path k v => refSetOp path k v
  | .del key => .ok (.dict [("k", .str key)])
  | .drop => .ok (.dict [])

/-- Run a sequence of mutations; a raised exception propagates (stops the
run), leaving the buffer as the failed mutation found it. -/
def runMuts (changes : List PyVal) : List Mut → Except Err (List PyVal)
  | [] => .ok changes
  | m :: ms =>
    match applyMut changes m with
    | .ok c2 => runMuts c2 ms
    | .error e => .error e

/-- The JSON-representable fragment used for the round-trip law: values
built from primitives, primitive lists, and string-keyed mappings with
distinct keys (a Python `dict` cannot hold duplicate keys). -/
inductive JsonLike : PyVal → Prop where
  | none : JsonLike .none
  | bool (b : Bool) : JsonLike (.bool b)
  | int (n : Int) : JsonLike (.int n)
  | str (s : String) : JsonLike (.str s)
  | list (xs : List PyVal) : (∀ x ∈ xs, JsonLike x) → JsonLike (.list xs)
  | dict (kvs : List (String × PyVal)) : (kvs.map Prod.fst).Nodup →
      (∀ kv ∈ kvs, JsonLike kv.2) → JsonLike (.dict kvs)

/-- Value of a little-endian decimal digit list. -/
def ofDigitsRev : List Nat → Nat
  | [] => 0
  | d :: ds => d + 10 * ofDigitsRev ds

/-- The continuations a rendered value may be followed by inside a larger
rendered document: nothing, or a separator (`,`, `]`, `\x7d`). -/
def SepHead : List Char → Prop
  | [] => True
  | c :: _ => c = ',' ∨ c = ']' ∨ c = '\x7d'

-- ===== Helper lemmas =====

@[simp] theorem pyDump_list (xs : List PyVal) :
    pyDump (.list xs) = .list (xs.map pyDump) := by
  simp [pyDump, List.attach_map_val]

@[simp] theorem pyDump_tuple (xs : List PyVal) :
    pyDump (.tuple xs) = .list (xs.map pyDump) := by
  simp [pyDump, List.attach_map_val]

@[simp] theorem pyDump_dict (kvs : List (String × PyVal)) :
    pyDump (.dict kvs) = .dict (kvs.map fun kv => (kv.1, pyDump kv.2)) := by
  simp only [pyDump]
  exact congrArg PyVal.dict (List.attach_map_val kvs fun kv => (kv.1, pyDump kv.2))

@[simp] theorem pyDump_data (f : PyVal) (n : Int) (d : Option PyVal) :
    pyDump (.data f n d) = dataDump f n d := by simp [pyDump]

@[simp] theorem pyDump_dumper (r : PyVal) : pyDump (.dumper r) = r := by simp [pyDump]

@[simp] theorem pyDump_none : pyDump .none = .none := by simp [pyDump]

@[simp] theorem pyDump_bool (b : Bool) : pyDump (.bool b) = .bool b := by simp [pyDump]

@[simp] theorem pyDump_int (n : Int) : pyDump (.int n) = .int n := by simp [pyDump]

@[simp] theorem pyDump_str (s : String) : pyDump (.str s) = .str s := by simp [pyDump]

@[simp] theorem pyDump_obj (i : Nat) : pyDump (.obj i) = .obj i := by simp [pyDump]

-- ===== Claim theorems =====

/-- C5: for a `Data` descriptor with fields `f` and no initial data, the
encoding is decided by the sign of `size`: `0` gives the map-buffer shape
`{"m": {"f": f}}`, positive gives the fixed-buffer shape
`{"f": {"f": f, "n": size}}`, negative gives the circular-buffer shape
`{"c": {"f": f, "n": |size|}}`. -/
theorem c5_data_dump_shapes (f : PyVal) (n : Int) :
    (n = 0 → dataDump f n Option.none = .dict [("m", .dict [("f", f)])]) ∧
    (0 < n → dataDump f n Option.none = .dict [("f", .dict [("f", f), ("n", .int n)])]) ∧
    (n < 0 → dataDump f n Option.none = .dict [("c", .dict [("f", f), ("n", .int (-n))])]) := by
  refine ⟨fun h => ?_, fun h => ?_, fun h => ?_⟩
  · simp [dataDump, dataDumpEmpty, h]
  · simp [dataDump, dataDumpEmpty, show n ≠ 0 by omega, show ¬n < 0 by omega]
  · simp [dataDump, dataDumpEmpty, show n ≠ 0 by omega, h]

/-- Witness for C5 at `fields = ["a","b"]` and sizes `0`, `3`, `-5`. -/
theorem c5_data_dump_shapes_witness :
    dataDump (.list [.str "a", .str "b"]) 0 Option.none =
      .dict [("m", .dict [("f", .list [.str "a", .str "b"])])] ∧
    dataDump (.list [.str "a", .str "b"]) 3 Option.none =
      .dict [("f", .dict [("f", .list [.str "a", .str "b"]), ("n", .int 3)])] ∧
    dataDump (.list [.str "a", .str "b"]) (-5) Option.none =
      .dict [("c", .dict [("f", .list [.str "a", .str "b"]), ("n", .int 5)])] := by
  refine ⟨(c5_data_dump_shapes _ 0).1 rfl, (c5_data_dump_shapes _ 3).2.1 (by norm_num), ?_⟩
  have h := (c5_data_dump_shapes (.list [.str "a", .str "b"]) (-5)).2.2 (by norm_num)
  simpa using h

/-- C6: assigning a raw `Data` descriptor through a `Ref` (attribute and
index assignment share this body) raises
`ValueError('Data instances cannot be used in assignments.')` and appends
no operation to the page's mutation buffer. -/
theorem c6_ref_assign_data_rejected (changes : List PyVal) (path : String) (k : PyKey)
    (f : PyVal) (n : Int) (d : Option PyVal) :
    refSet changes path k (.data f n d) =
      .error (.valueError "Data instances cannot be used in assignments.") := by
  simp [refSet, refSetOp, PyVal.isData]

/-- C9: a key containing a space fails `_guard_key` — and hence `Ref`
attribute navigation, index navigation, and assignment — with
`KeyError('keys cannot contain spaces')`; integer keys and space-free
string keys pass the guard. -/
theorem c9_space_keys_rejected (s : String) (hs : s.data.contains ' ' = true) :
    guardKey (.str s) = .error (.keyError "keys cannot contain spaces") ∧
    (∀ path : String, refGetAttr path s = .error (.keyError "keys cannot contain spaces")) ∧
    (∀ path : String, refGetItem path (.str s) = .error (.keyError "keys cannot contain spaces")) ∧
    (∀ (changes : List PyVal) (path : String) (v : PyVal), v.isData = false →
      refSet changes path (.str s) v = .error (.keyError "keys cannot contain spaces")) ∧
    (∀ n : Int, guardKey (.int n) = .ok ()) ∧
    (∀ t : String, t.data.contains ' ' = false → guardKey (.str t) = .ok ()) := by
  have hs2 : ' ' ∈ s.data := by simpa using hs
  refine ⟨?_, ?_, ?_, ?_, ?_, ?_⟩
  · simp [guardKey, hs2]
  · intro path; simp [refGetAttr, guardKey, hs2]
  · intro path; simp [refGetItem, guardKey, hs2]
  · intro changes path v hv
    simp [refSet, refSetOp, hv, setOp, guardKey, hs2]
  · intro n; simp [guardKey]
  · intro t ht
    have ht2 : ' ' ∉ t.data := by simpa using ht
    simp [guardKey, ht2]

/-- Witness for C9 at the key `"a b"` (and `"ab"`, `7` for the passing
side). -/
theorem c9_space_keys_rejected_witness :
    guardKey (.str "a b") = .error (.keyError "keys cannot contain spaces") ∧
    refGetAttr "c" "a b" = .error (.keyError "keys cannot contain spaces") ∧
    refSet [] "c" (.str "a b") (.int 1) = .error (.keyError "keys cannot contain spaces") ∧
    guardKey (.int 7) = .ok () ∧
    guardKey (.str "ab") = .ok () := by
  have h := c9_space_keys_rejected "a b" (by decide)
  exact ⟨h.1, h.2.1 "c", h.2.2.2.1 [] "c" (.int 1) rfl, h.2.2.2.2.1 7,
    h.2.2.2.2.2 "ab" (by decide)⟩

/-- C1 counterexample: an opaque object — not a primitive, not a container,
not dump-capable — assigned through a `Ref` is *not* rejected: no error is
raised and the set op carrying the raw object is appended to the buffer
(`_guard_primitive` exists in the source but is never called on this path). -/
theorem c1_counterexample :
    isPrimitive (.obj 0) = false ∧ canDump (.obj 0) = false ∧
    refSet [] "c" (.str "x") (.obj 0) =
      .ok [.dict [("k", .str "c x"), ("v", .obj 0)]] := by
  refine ⟨rfl, rfl, ?_⟩
  simp [refSet, refSetOp, PyVal.isData, setOp, guardKey, keyStr, keySep]

/-- C1 amended: `Ref` assignment validates only the key and the
top-level-`Data` condition; a non-primitive, non-container, non-dumpable
value (an opaque object) passes through `_dump` unchanged and a set op
carrying it is appended — no `InvalidValueError` is raised. -/
theorem c1_amended_no_value_guard (changes : List PyVal) (path : String) (k : PyKey)
    (hk : guardKey k = .ok ()) (i : Nat) :
    refSet changes path k (.obj i) =
      .ok (changes ++ [.dict [("k", .str (path ++ keySep ++ keyStr k)), ("v", .obj i)]]) := by
  simp [refSet, refSetOp, PyVal.isData, setOp, hk]

/-- Witness for C1 amended at `path = "c"`, `key = "x"`, object id 0. -/
theorem c1_amended_no_value_guard_witness :
    refSet [] "c" (.str "x") (.obj 0) =
      .ok [.dict [("k", .str ("c" ++ keySep ++ keyStr (.str "x"))), ("v", .obj 0)]] := by
  exact c1_amended_no_value_guard [] "c" (.str "x") rfl 0

/-- C10: a `Data` descriptor nested inside a list, tuple, or dict value
assigned through a `Ref` is not rejected: `_dump` recursively expands it via
`Data.dump`, and the encoded wire form is inlined into the set op's value
(tuples dump as lists); no out-of-band buffer and no error result. -/
theorem c10_nested_data_inlined (changes : List PyVal) (path : String) (k : PyKey)
    (hk : guardKey k = .ok ()) (f : PyVal) (n : Int) (d : Option PyVal) (key2 : String) :
    refSet changes path k (.list [.data f n d]) =
      .ok (changes ++ [.dict [("k", .str (path ++ keySep ++ keyStr k)),
        ("v", .list [dataDump f n d])]]) ∧
    refSet changes path k (.tuple [.data f n d]) =
      .ok (changes ++ [.dict [("k", .str (path ++ keySep ++ keyStr k)),
        ("v", .list [dataDump f n d])]]) ∧
    refSet changes path k (.dict [(key2, .data f n d)]) =
      .ok (changes ++ [.dict [("k", .str (path ++ keySep ++ keyStr k)),
        ("v", .dict [(key2, dataDump f n d)])]]) := by
    refine ⟨?_, ?_, ?_⟩ <;> simp [refSet, refSetOp, PyVal.isData, setOp, hk]

/-- Witness for C10 at `path = "c"`, key `"x"`, `Data(["a"], 10)`. -/
theorem c10_nested_data_inlined_witness :
    refSet [] "c" (.str "x") (.list [.data (.list [.str "a"]) 10 Option.none]) =
      .ok [.dict [("k", .str ("c" ++ keySep ++ keyStr (.str "x"))),
        ("v", .list [dataDump (.list [.str "a"]) 10 Option.none])]] := by
  exact (c10_nested_data_inlined [] "c" (.str "x") rfl
    (.list [.str "a"]) 10 Option.none "z").1

/-- C2: `_diff` with an empty buffer returns the no-diff sentinel (`None`)
and leaves the buffer unchanged, so an immediately repeated flush returns
the sentinel again; with a non-empty buffer it returns exactly the JSON
marshaling of `{d: operations}` over the entire current operation list and
clears the buffer in the same step (all-or-nothing). -/
theorem c2_diff_protocol (changes : List PyVal) :
    (changes = [] → pageDiff changes = (.ok Option.none, changes) ∧
      pageDiff (pageDiff changes).2 = (.ok Option.none, changes)) ∧
    (changes ≠ [] → ∀ s, marshal (.dict [("d", .list changes)]) = some s →
      pageDiff changes = (.ok (some s), [])) := by
  constructor
  · rintro rfl
    simp [pageDiff]
  · intro h s hm
    have hl : ¬changes.length = 0 := by simpa [List.length_eq_zero] using h
    simp [pageDiff, hl, hm]

/-- Witness for C2: an empty buffer and the one-op buffer `[{}]`. -/
theorem c2_diff_protocol_witness :
    pageDiff [] = (.ok Option.none, []) ∧
    pageDiff [PyVal.dict []] = (.ok (some "\x7b\"d\":[\x7b\x7d]\x7d"), []) := by
  refine ⟨((c2_diff_protocol []).1 rfl).1, ?_⟩
  exact (c2_diff_protocol [PyVal.dict []]).2 (by simp) _
    (by simp [marshal, renderVal, renderItems, renderPairs, renderString, escChar])

/-- C7 counterexample: `add` accepts the empty-string key — no
`InvalidCardError` is raised and the add-card op is appended — although the
claim requires a non-empty key. -/
theorem c7_counterexample :
    pageAdd [] (.str "") (.dict []) =
      .ok ([.dict [("k", .str ""), ("d", .dict [])]], "") := by
  simp [pageAdd, addOp, scanCard, displace]

/-- C7 amended: `add(key, card)` raises `ValueError` when `key` is `None`
(`'card must have a key'`) or any non-string value (`'key must be str'`) —
the empty string is *not* rejected — and when `card` is neither a dict nor
a dump-capable object whose `_dump` result is a dict
(`'card must be dict or implement .dump() -> dict'`); on failure nothing is
appended to the buffer. -/
theorem c7_add_validation (changes : List PyVal) (key card : PyVal) :
    (key = .none → pageAdd changes key card = .error (.valueError "card must have a key")) ∧
    (key ≠ .none → (∀ s, key ≠ .str s) →
      pageAdd changes key card = .error (.valueError "key must be str")) ∧
    (∀ s, key = .str s → (∀ kvs, card ≠ .dict kvs) → canDump card = false →
      pageAdd changes key card =
        .error (.valueError "card must be dict or implement .dump() -> dict")) ∧
    (∀ s r, key = .str s → card = .dumper r → r.isDict = false →
      pageAdd changes key card =
        .error (.valueError "card must be dict or implement .dump() -> dict")) := by
  refine ⟨?_, ?_, ?_, ?_⟩
  · rintro rfl
    simp [pageAdd, addOp]
  · intro h1 h2
    cases key <;> simp_all [pageAdd, addOp]
  · rintro s rfl h2 h3
    cases card <;> simp_all [pageAdd, addOp, canDump]
  · rintro s r rfl rfl h3
    cases r <;> simp_all [pageAdd, addOp, canDump, PyVal.isDict]

/-- Witness for C7 amended: `None` key, integer key, non-dumpable card,
dumper card returning a non-dict. -/
theorem c7_add_validation_witness :
    pageAdd [] .none (.dict []) = .error (.valueError "card must have a key") ∧
    pageAdd [] (.int 3) (.dict []) = .error (.valueError "key must be str") ∧
    pageAdd [] (.str "c") (.int 7) =
      .error (.valueError "card must be dict or implement .dump() -> dict") ∧
    pageAdd [] (.str "c") (.dumper (.int 1)) =
      .error (.valueError "card must be dict or implement .dump() -> dict") := by
  refine ⟨(c7_add_validation [] .none (.dict [])).1 rfl,
    (c7_add_validation [] (.int 3) (.dict [])).2.1 (by simp) (by simp),
    (c7_add_validation [] (.str "c") (.int 7)).2.2.1 "c" rfl (by simp) rfl,
    (c7_add_validation [] (.str "c") (.dumper (.int 1))).2.2.2 "c" (.int 1) rfl rfl rfl⟩

/-- Flushing a non-empty buffer whose marshaling succeeds returns the
marshaled diff and clears the buffer. -/
theorem pageDiff_nonempty (changes : List PyVal) (hne : changes ≠ [])
    (s : String) (hm : marshal (.dict [("d", .list changes)]) = some s) :
    pageDiff changes = (.ok (some s), []) := by
  have hl : ¬changes.length = 0 := by simpa [List.length_eq_zero] using hne
  simp [pageDiff, hl, hm]

/-- A successful mutation appends exactly the op `mutOp` computes, at the
end of the buffer. -/
theorem applyMut_ok (changes : List PyVal) (m : Mut) (c2 : List PyVal)
    (h : applyMut changes m = .ok c2) :
    ∃ op, mutOp m = .ok op ∧ c2 = changes ++ [op] := by
  cases m with
  | add key card =>
    cases ha : addOp key card with
    | ok r =>
      obtain ⟨op, root⟩ := r
      refine ⟨op, by simp [mutOp, ha], ?_⟩
      simp [applyMut, pageAdd, ha] at h
      exact h.symm
    | error e => simp [applyMut, pageAdd, ha] at h
  | set path k v =>
    cases hr : refSetOp path k v with
    | ok op =>
      refine ⟨op, by simp [mutOp, hr], ?_⟩
      simp [applyMut, refSet, hr] at h
      exact h.symm
    | error e => simp [applyMut, refSet, hr] at h
  | del key =>
    refine ⟨.dict [("k", .str key)], rfl, ?_⟩
    simp [applyMut, pageDelItem, pageTrack] at h
    exact h.symm
  | drop =>
    refine ⟨.dict [], rfl, ?_⟩
    simp [applyMut, pageDrop, pageTrack] at h
    exact h.symm

/-- C4: a successful mutation sequence contributes exactly one op per
mutation, appended in the order the mutations occurred: the final buffer is
the initial buffer followed by `mapM mutOp` of the sequence — no op is
reordered, merged, or dropped — and the next flush marshals exactly that
ordered list. -/
theorem c4_op_order (ms : List Mut) : ∀ (changes final : List PyVal),
    runMuts changes ms = .ok final →
    ∃ ops : List PyVal, ms.mapM mutOp = .ok ops ∧ ops.length = ms.length ∧
      final = changes ++ ops ∧
      (final ≠ [] → ∀ s, marshal (.dict [("d", .list final)]) = some s →
        pageDiff final = (.ok (some s), [])) := by
  induction ms with
  | nil =>
    intro changes final h
    simp [runMuts] at h
    exact ⟨[], by rw [List.mapM_nil]; rfl, by simp, by simp [h],
      fun hne s hm => pageDiff_nonempty _ hne s hm⟩
  | cons m ms ih =>
    intro changes final h
    cases ha : applyMut changes m with
    | ok c2 =>
      rw [runMuts, ha] at h
      obtain ⟨op, hop, hc2⟩ := applyMut_ok changes m c2 ha
      obtain ⟨ops, hmapm, hlen, hfinal, hdiff⟩ := ih c2 final h
      refine ⟨op :: ops, ?_, by simp [hlen], ?_, hdiff⟩
      · rw [List.mapM_cons, hop, hmapm]; rfl
      · simp [hfinal, hc2]
    | error e => rw [runMuts, ha] at h; cases h

/-- Witness for C4: `add("a", {x: 1}); page["a"].y = 2; del page["a"]`
yields exactly the three ops, in order. -/
theorem c4_op_order_witness :
    ∃ ops : List PyVal,
      [Mut.add (.str "a") (.dict [("x", .int 1)]), Mut.set "a" (.str "y") (.int 2),
        Mut.del "a"].mapM mutOp = .ok ops ∧
      ops.length = [Mut.add (.str "a") (.dict [("x", .int 1)]),
        Mut.set "a" (.str "y") (.int 2), Mut.del "a"].length ∧
      ([PyVal.dict [("k", .str "a"), ("d", .dict [("x", .int 1)])],
        PyVal.dict [("k", .str "a y"), ("v", .int 2)],
        PyVal.dict [("k", .str "a")]] : List PyVal) = [] ++ ops ∧
      (([PyVal.dict [("k", .str "a"), ("d", .dict [("x", .int 1)])],
         PyVal.dict [("k", .str "a y"), ("v", .int 2)],
         PyVal.dict [("k", .str "a")]] : List PyVal) ≠ [] →
        ∀ s, marshal (.dict [("d", .list [PyVal.dict [("k", .str "a"), ("d", .dict [("x", .int 1)])],
          PyVal.dict [("k", .str "a y"), ("v", .int 2)], PyVal.dict [("k", .str "a")]])]) = some s →
        pageDiff [PyVal.dict [("k", .str "a"), ("d", .dict [("x", .int 1)])],
          PyVal.dict [("k", .str "a y"), ("v", .int 2)],
          PyVal.dict [("k", .str "a")]] = (.ok (some s), [])) :=
  c4_op_order _ [] _ (by
    simp [runMuts, applyMut, pageAdd, addOp, scanCard, displace, refSet, refSetOp,
      setOp, guardKey, keyStr, keySep, pageDelItem, pageTrack, PyVal.isData])


/-- Prefixing with `~` is injective. -/
theorem tilde_inj {a b : String} (h : "~" ++ a = "~" ++ b) : a = b := by
  have h2 := congrArg String.data h
  simp only [String.data_append] at h2
  cases a; cases b
  simp_all

/-- The keys recorded by the `add` scan are the Data-valued keys, in order. -/
theorem scanCard_fst (kvs : List (String × PyVal)) : ∀ i : Nat,
    (scanCard kvs i).1.map Prod.fst =
      (kvs.filter fun kv => kv.2.isData).map Prod.fst := by
  induction kvs with
  | nil => intro i; simp [scanCard]
  | cons kv rest ih =>
    intro i
    obtain ⟨k, v⟩ := kv
    cases v <;> simp [scanCard, PyVal.isData, ih]

/-- The buffers recorded by the `add` scan are the dumps of the Data-valued
properties, in order. -/
theorem scanCard_bufs (kvs : List (String × PyVal)) : ∀ i : Nat,
    (scanCard kvs i).2 =
      (kvs.filter fun kv => kv.2.isData).map fun kv => objDump kv.2 := by
  induction kvs with
  | nil => intro i; simp [scanCard]
  | cons kv rest ih =>
    intro i
    obtain ⟨k, v⟩ := kv
    cases v <;> simp [scanCard, PyVal.isData, ih, objDump]

/-- The scan's `(key, index)` pairs, rewritten as marker properties, are the
`tildeMarkers` of the Data-valued keys. -/
theorem scanCard_markers (kvs : List (String × PyVal)) : ∀ i : Nat,
    ((scanCard kvs i).1.map fun kj => ("~" ++ kj.1, PyVal.int kj.2)) =
      tildeMarkers ((kvs.filter fun kv => kv.2.isData).map Prod.fst) i := by
  induction kvs with
  | nil => intro i; simp [scanCard, tildeMarkers]
  | cons kv rest ih =>
    intro i
    obtain ⟨k, v⟩ := kv
    cases v <;> simp [scanCard, PyVal.isData, ih, tildeMarkers]

/-- The displacement loop, on a property list whose recorded keys are
distinct and whose `~` forms collide with nothing: the recorded keys are
deleted and the `~` marker entries appended in order. -/
theorem displace_spec : ∀ (ds : List (String × Nat)) (p : List (String × PyVal)),
    (ds.map Prod.fst).Nodup →
    (∀ kj ∈ ds, ("~" ++ kj.1) ∉ p.map Prod.fst) →
    (∀ kj ∈ ds, ∀ kj2 ∈ ds, ("~" ++ kj.1) ≠ kj2.1) →
    displace p ds = (p.filter fun kv => !((ds.map Prod.fst).contains kv.1)) ++
      ds.map fun kj => ("~" ++ kj.1, PyVal.int kj.2) := by
  intro ds
  induction ds with
  | nil => intro p _ _ _; simp [displace]
  | cons kj ds ih =>
    intro p hnd hno hcross
    obtain ⟨k, i⟩ := kj
    rw [List.map_cons] at hnd
    have hnok : ((dictDel p k).any fun kv => kv.1 == ("~" ++ k)) = false := by
      rw [List.any_eq_false]
      intro kv hkv
      have hmem : kv ∈ p := List.mem_of_mem_filter hkv
      have hmem2 : kv.1 ∈ p.map Prod.fst := List.mem_map_of_mem _ hmem
      have hk := hno (k, i) (by simp)
      simp only [beq_iff_eq]
      intro hkv1
      exact hk (hkv1 ▸ hmem2)
    have hstep : dictSet (dictDel p k) ("~" ++ k) (.int i) =
        (p.filter fun kv => kv.1 ≠ k) ++ [("~" ++ k, PyVal.int i)] := by
      simp only [dictSet]
      rw [hnok]
      simp [dictDel]
    have hno2 : ∀ kj2 ∈ ds, ("~" ++ kj2.1) ∉
        ((p.filter fun kv => kv.1 ≠ k) ++ [("~" ++ k, PyVal.int i)]).map Prod.fst := by
      intro kj2 hkj2 hin
      rw [List.map_append, List.mem_append] at hin
      rcases hin with hin | hin
      · obtain ⟨kv, hkv, hkv1⟩ := List.mem_map.1 hin
        have hmem : kv ∈ p := List.mem_of_mem_filter hkv
        exact hno kj2 (by simp [hkj2]) (hkv1 ▸ List.mem_map_of_mem _ hmem)
      · simp only [List.map_cons, List.map_nil, List.mem_singleton] at hin
        have hkk : kj2.1 = k := tilde_inj hin
        have hnd2 := List.nodup_cons.1 hnd
        exact hnd2.1 (by rw [← hkk]; exact List.mem_map.2 ⟨kj2, hkj2, rfl⟩)
    have hres := ih ((p.filter fun kv => kv.1 ≠ k) ++ [("~" ++ k, PyVal.int i)])
      hnd.of_cons hno2
      (fun a ha b hb => hcross a (by simp [ha]) b (by simp [hb]))
    have hunfold : displace p ((k, i) :: ds) =
        displace (dictSet (dictDel p k) ("~" ++ k) (.int i)) ds := rfl
    rw [hunfold, hstep, hres]
    have hnotin : ("~" ++ k) ∉ ds.map Prod.fst := by
      intro hin
      obtain ⟨kj2, hkj2, hkj21⟩ := List.mem_map.1 hin
      exact hcross (k, i) (by simp) kj2 (by simp [hkj2]) hkj21.symm
    have hsing : (([("~" ++ k, PyVal.int i)] : List (String × PyVal)).filter
        fun kv => !((ds.map Prod.fst).contains kv.1)) = [("~" ++ k, PyVal.int i)] := by
      simp [List.contains, hnotin]
    rw [List.filter_append, hsing, List.filter_filter]
    have hcongr : (p.filter fun kv =>
        (!((ds.map Prod.fst).contains kv.1)) && decide (kv.1 ≠ k)) =
        p.filter fun kv => !((((k, i) :: ds).map Prod.fst).contains kv.1) := by
      apply List.filter_congr
      intro kv _
      by_cases hk : kv.1 = k <;>
        simp [hk, List.map_cons, List.contains_cons]
    rw [hcongr]
    simp


/-- With distinct keys, membership of a property's key among the Data-valued
keys coincides with its own value being Data. -/
theorem filter_keys_eq (kvs : List (String × PyVal))
    (hnd : (kvs.map Prod.fst).Nodup) :
    (kvs.filter fun kv =>
      !(((kvs.filter fun kv2 => kv2.2.isData).map Prod.fst).contains kv.1)) =
      kvs.filter fun kv => !kv.2.isData := by
  apply List.filter_congr
  intro kv hkv
  have hinj := List.inj_on_of_nodup_map hnd
  by_cases hd : kv.2.isData = true
  · have hin : kv.1 ∈ (kvs.filter fun kv2 => kv2.2.isData).map Prod.fst :=
      List.mem_map.2 ⟨kv, List.mem_filter.2 ⟨hkv, hd⟩, rfl⟩
    simp [List.contains, hin, hd]
  · have hnin : kv.1 ∉ (kvs.filter fun kv2 => kv2.2.isData).map Prod.fst := by
      intro hin
      obtain ⟨kv2, hkv2, heq⟩ := List.mem_map.1 hin
      have hkv2m := List.mem_filter.1 hkv2
      have heqkv : kv2 = kv := hinj hkv2m.1 hkv heq
      rw [heqkv] at hkv2m
      exact hd hkv2m.2
    simp [List.contains, hnin, hd]

/-- C3: `add(key, card)` on a property mapping with distinct keys (and no
artificial `~`-collisions): every `Data`-valued property is removed, a
`~key ↦ bufferIndex` marker is appended in scan order, the encoded buffers
form the ordered `b` list (present exactly when non-empty), and the returned
`Ref` is rooted at `key`.  A dump-capable card whose dump result is that
same mapping behaves identically. -/
theorem c3_add_buffer_extraction (changes : List PyVal) (s : String)
    (kvs : List (String × PyVal))
    (hnd : (kvs.map Prod.fst).Nodup)
    (hcol : ∀ kv ∈ kvs, kv.2.isData = true → ("~" ++ kv.1) ∉ kvs.map Prod.fst) :
    pageAdd changes (.str s) (.dict kvs) =
      .ok (changes ++ [
        if ((kvs.filter fun kv => kv.2.isData).length) > 0 then
          PyVal.dict [("k", .str s),
            ("d", .dict ((kvs.filter fun kv => !kv.2.isData) ++
              tildeMarkers ((kvs.filter fun kv => kv.2.isData).map Prod.fst) 0)),
            ("b", .list ((kvs.filter fun kv => kv.2.isData).map fun kv => objDump kv.2))]
        else
          PyVal.dict [("k", .str s), ("d", .dict (kvs.filter fun kv => !kv.2.isData))]],
        s) ∧
    pageAdd changes (.str s) (.dumper (.dict kvs)) =
      pageAdd changes (.str s) (.dict kvs) := by
  have hds : ((scanCard kvs 0).1.map Prod.fst).Nodup := by
    rw [scanCard_fst]
    exact ((List.filter_sublist kvs).map Prod.fst).nodup hnd
  have hno : ∀ kj ∈ (scanCard kvs 0).1, ("~" ++ kj.1) ∉ kvs.map Prod.fst := by
    intro kj hkj
    have : kj.1 ∈ (scanCard kvs 0).1.map Prod.fst := List.mem_map.2 ⟨kj, hkj, rfl⟩
    rw [scanCard_fst] at this
    obtain ⟨kv, hkv, heq⟩ := List.mem_map.1 this
    have hkvm := List.mem_filter.1 hkv
    rw [← heq]
    exact hcol kv hkvm.1 hkvm.2
  have hcross : ∀ kj ∈ (scanCard kvs 0).1, ∀ kj2 ∈ (scanCard kvs 0).1,
      ("~" ++ kj.1) ≠ kj2.1 := by
    intro kj hkj kj2 hkj2 heq
    have h2 : kj2.1 ∈ (scanCard kvs 0).1.map Prod.fst := List.mem_map.2 ⟨kj2, hkj2, rfl⟩
    rw [scanCard_fst] at h2
    obtain ⟨kv, hkv, heq2⟩ := List.mem_map.1 h2
    have hkvm := List.mem_filter.1 hkv
    exact hno kj hkj (by
      rw [heq, ← heq2]
      exact List.mem_map.2 ⟨kv, hkvm.1, rfl⟩)
  have hdisp : displace kvs (scanCard kvs 0).1 =
      (kvs.filter fun kv => !kv.2.isData) ++
        tildeMarkers ((kvs.filter fun kv => kv.2.isData).map Prod.fst) 0 := by
    rw [displace_spec (scanCard kvs 0).1 kvs hds hno hcross, scanCard_markers,
      scanCard_fst, filter_keys_eq kvs hnd]
  constructor
  · simp only [pageAdd, addOp, hdisp, scanCard_bufs]
    simp only [List.length_map]
    by_cases hlen : 0 < (List.filter (fun kv => kv.2.isData) kvs).length
    · simp [hlen]
    · have hnil : (kvs.filter fun kv => kv.2.isData) = [] :=
        List.length_eq_zero.1 (by omega)
      simp [hlen, hnil, tildeMarkers]
  · simp [pageAdd, addOp, canDump]

/-- Witness for C3 at the spec's example `add("c1", {x: Data(["a","b"], size=3)})`:
`x` is displaced to `~x ↦ 0` and the `b` list holds the fixed-buffer
encoding. -/
theorem c3_add_buffer_extraction_witness :
    pageAdd [] (.str "c1")
        (.dict [("x", .data (.list [.str "a", .str "b"]) 3 Option.none)]) =
      .ok ([PyVal.dict [("k", .str "c1"),
        ("d", .dict [("~" ++ "x", .int 0)]),
        ("b", .list [.dict [("f", .dict [("f", .list [.str "a", .str "b"]),
          ("n", .int 3)])]])]], "c1") := by
  have h := (c3_add_buffer_extraction []
    "c1" [("x", .data (.list [.str "a", .str "b"]) 3 Option.none)]
    (by simp) (by simp)).1
  simpa [PyVal.isData, tildeMarkers, objDump, dataDump, dataDumpEmpty] using h

-- ===== JSON round-trip machinery =====

/-- `Char.ofNat` of a valid code point has that code point as `toNat`. -/
theorem toNat_ofNat_valid {n : Nat} (h : n.isValidChar) : (Char.ofNat n).toNat = n := by
  rw [Char.ofNat, dif_pos h]
  simp [Char.ofNatAux, Char.toNat, UInt32.toNat, BitVec.toNat_ofNatLt]

/-- Every character's code point avoids the surrogate range and the
out-of-range values. -/
theorem char_toNat_valid (c : Char) :
    c.toNat < 0xd800 ∨ (0xdfff < c.toNat ∧ c.toNat < 0x110000) := c.valid

theorem digitChar_isDigit {d : Nat} (h : d < 10) : (digitChar d).isDigit = true := by
  interval_cases d <;> decide

theorem digitChar_toNat_sub {d : Nat} (h : d < 10) : (digitChar d).toNat - 48 = d := by
  interval_cases d <;> decide

theorem digitChar_ne_zero {d : Nat} (h : d < 10) (h0 : d ≠ 0) : digitChar d ≠ '0' := by
  interval_cases d
  · exact absurd rfl h0
  all_goals decide

theorem hexVal_hexDigitChar {d : Nat} (h : d < 16) : hexVal (hexDigitChar d) = some d := by
  interval_cases d <;> decide

/-- A decimal digit character is none of the tokens the value parser
dispatches on. -/
theorem isDigit_ne_tokens (c : Char) (h : c.isDigit = true) :
    c ≠ 'n' ∧ c ≠ 't' ∧ c ≠ 'f' ∧ c ≠ '"' ∧ c ≠ '[' ∧ c ≠ '\x7b' ∧ c ≠ '-' ∧
      isWs c = false := by
  have hne : ∀ d : Char, d.isDigit = false → c ≠ d := by
    intro d hd hc
    subst hc
    rw [h] at hd
    cases hd
  refine ⟨hne 'n' (by decide), hne 't' (by decide), hne 'f' (by decide),
    hne '"' (by decide), hne '[' (by decide), hne '\x7b' (by decide),
    hne '-' (by decide), ?_⟩
  simp only [isWs]
  simp [hne ' ' (by decide), hne '\t' (by decide), hne '\n' (by decide),
    hne '\r' (by decide)]

theorem natDigitsAux_value : ∀ (fuel n : Nat), n ≤ fuel →
    ofDigitsRev (natDigitsAux fuel n) = n := by
  intro fuel
  induction fuel with
  | zero => intro n h; interval_cases n; simp [natDigitsAux, ofDigitsRev]
  | succ fuel ih =>
    intro n h
    cases n with
    | zero => simp [natDigitsAux, ofDigitsRev]
    | succ m =>
      simp only [natDigitsAux, ofDigitsRev]
      rw [ih ((m + 1) / 10) (by omega)]
      omega

theorem natDigitsAux_msd : ∀ (fuel n : Nat), n ≤ fuel → n ≠ 0 →
    ∃ b bs, (natDigitsAux fuel n).reverse = b :: bs ∧ b ≠ 0 ∧ b < 10 ∧
      ∀ d ∈ bs, d < 10 := by
  intro fuel
  induction fuel with
  | zero => intro n h h0; omega
  | succ fuel ih =>
    intro n h h0
    cases n with
    | zero => omega
    | succ m =>
      by_cases hm : (m + 1) / 10 = 0
      · refine ⟨(m + 1) % 10, [], ?_, by omega, by omega, by simp⟩
        simp [natDigitsAux, hm]
      · obtain ⟨b, bs, hrev, hb0, hb10, hbs⟩ := ih ((m + 1) / 10) (by omega) hm
        refine ⟨b, bs ++ [(m + 1) % 10], ?_, hb0, hb10, ?_⟩
        · simp [natDigitsAux, List.reverse_cons, hrev]
        · intro d hd
          rcases List.mem_append.1 hd with hd | hd
          · exact hbs d hd
          · simp at hd; omega

theorem foldl_reverse_digits : ∀ (ds : List Nat) (acc : Nat),
    ds.reverse.foldl (fun a d => a * 10 + d) acc =
      acc * 10 ^ ds.length + ofDigitsRev ds := by
  intro ds
  induction ds with
  | nil => intro acc; simp [ofDigitsRev]
  | cons d ds ih =>
    intro acc
    simp only [List.reverse_cons, List.foldl_append, ih, ofDigitsRev, List.foldl_cons,
      List.foldl_nil, List.length_cons]
    ring

theorem parseDigitsAux_spec : ∀ (bs : List Nat), (∀ d ∈ bs, d < 10) →
    ∀ (acc : Nat) (rest : List Char), (∀ c ∈ rest.head?, c.isDigit = false) →
    parseDigitsAux (bs.map digitChar ++ rest) acc =
      (bs.foldl (fun a d => a * 10 + d) acc, rest) := by
  intro bs
  induction bs with
  | nil =>
    intro _ acc rest hrest
    cases rest with
    | nil => simp [parseDigitsAux]
    | cons c r =>
      have hc : c.isDigit = false := hrest c (by simp)
      simp [parseDigitsAux, hc]
  | cons b bs ih =>
    intro hb acc rest hrest
    have hb10 : b < 10 := hb b (by simp)
    simp only [List.map_cons, List.cons_append, parseDigitsAux,
      digitChar_isDigit hb10, if_true, digitChar_toNat_sub hb10, List.foldl_cons]
    exact ih (fun d hd => hb d (by simp [hd])) _ rest hrest

/-- `renderNat` is a non-empty digit string. -/
theorem renderNat_head (n : Nat) : ∃ c cs, renderNat n = c :: cs ∧ c.isDigit = true := by
  by_cases h0 : n = 0
  · subst h0
    exact ⟨'0', [], rfl, by decide⟩
  · obtain ⟨b, bs, hrev, hb0, hb10, hbs⟩ := natDigitsAux_msd n n le_rfl h0
    refine ⟨digitChar b, bs.map digitChar, ?_, digitChar_isDigit hb10⟩
    rw [renderNat, if_neg h0, natDigitsRev, hrev, List.map_cons]

/-- The integer-token parser inverts `renderNat` when what follows does not
begin with a digit. -/
theorem parseUIntTok_renderNat (n : Nat) (rest : List Char)
    (hrest : ∀ c ∈ rest.head?, c.isDigit = false) :
    parseUIntTok (renderNat n ++ rest) = some (n, rest) := by
  by_cases h0 : n = 0
  · subst h0
    simp [renderNat, parseUIntTok]
  · obtain ⟨b, bs, hrev, hb0, hb10, hbs⟩ := natDigitsAux_msd n n le_rfl h0
    have hval : ofDigitsRev (natDigitsAux n n) = n := natDigitsAux_value n n le_rfl
    rw [renderNat, if_neg h0, natDigitsRev, hrev, List.map_cons, List.cons_append,
      parseUIntTok]
    rw [if_neg (digitChar_ne_zero hb10 hb0), if_pos (digitChar_isDigit hb10),
      digitChar_toNat_sub hb10, parseDigitsAux_spec bs hbs b rest hrest]
    have hfold := foldl_reverse_digits (natDigitsAux n n) 0
    rw [hrev] at hfold
    simp only [List.foldl_cons, hval] at hfold
    simpa using hfold

/-- The number parser inverts `renderInt` when what follows neither starts
with a digit nor continues a float literal. -/
theorem parseNum_renderInt (i : Int) (rest : List Char)
    (hrest : ∀ c ∈ rest.head?,
      c.isDigit = false ∧ c ≠ '.' ∧ c ≠ 'e' ∧ c ≠ 'E') :
    parseNum (renderInt i ++ rest) = some (.int i, rest) := by
  have hfg : floatGuard i rest = some (.int i, rest) := by
    cases rest with
    | nil => rfl
    | cons c r =>
      obtain ⟨_, hd, he, hE⟩ := hrest c (by simp)
      simp [floatGuard, hd, he, hE]
  by_cases hneg : i < 0
  · rw [renderInt, if_pos hneg, List.cons_append, parseNum, if_pos rfl,
      parseUIntTok_renderNat (-i).toNat rest (fun c hc => (hrest c hc).1)]
    show floatGuard (-(((-i).toNat : Int))) rest = some (.int i, rest)
    rw [show (-(((-i).toNat : Int))) = i by omega]
    exact hfg
  · obtain ⟨c, cs, hc, hdig⟩ := renderNat_head i.toNat
    have hne := isDigit_ne_tokens c hdig
    rw [renderInt, if_neg hneg, hc, List.cons_append, parseNum, if_neg hne.2.2.2.2.2.2.1,
      ← List.cons_append, ← hc,
      parseUIntTok_renderNat i.toNat rest (fun c hc => (hrest c hc).1)]
    show floatGuard ((i.toNat : Int)) rest = some (.int i, rest)
    rw [show ((i.toNat : Int)) = i by omega]
    exact hfg

/-- `hex4` inverts four rendered hex digits. -/
theorem hex4_hexDigitChars {a b c d : Nat} (ha : a < 16) (hb : b < 16)
    (hc : c < 16) (hd : d < 16) :
    hex4 (hexDigitChar a) (hexDigitChar b) (hexDigitChar c) (hexDigitChar d) =
      some (((a * 16 + b) * 16 + c) * 16 + d) := by
  simp [hex4, hexVal_hexDigitChar ha, hexVal_hexDigitChar hb,
    hexVal_hexDigitChar hc, hexVal_hexDigitChar hd]

/-- Every escape produces at least one character. -/
theorem escChar_length_pos (c : Char) : 1 ≤ (escChar c).length := by
  rw [escChar]
  split_ifs <;> simp [uEscape4]

/-- Escaping a string yields at least one character per source character. -/
theorem flatMap_escChar_length (l : List Char) :
    l.length ≤ (l.flatMap escChar).length := by
  induction l with
  | nil => simp
  | cons c l ih =>
    have := escChar_length_pos c
    simp only [List.flatMap_cons, List.length_append, List.length_cons]
    omega

/-- One `py_scanstring` step decodes a surrogate pair back into the
original astral-plane character. -/
theorem parseStringGo_astral
    (go : List Char → Option (List Char × List Char))
    (a b c d a2 b2 c2 d2 : Char) (v w : Nat)
    (hhi : hex4 a b c d = some v) (hlo : hex4 a2 b2 c2 d2 = some w)
    (hv1 : 0xd800 ≤ v) (hv2 : v < 0xdc00)
    (hw1 : 0xdc00 ≤ w) (hw2 : w < 0xe000)
    (T : List Char) (s r : List Char) (hT : go T = some (s, r)) :
    parseStringGo go
      ('\\' :: 'u' :: a :: b :: c :: d :: '\\' :: 'u' :: a2 :: b2 :: c2 :: d2 :: T)
      = some (Char.ofNat (0x10000 + (v - 0xd800) * 0x400 + (w - 0xdc00)) :: s, r) := by
  dsimp only [parseStringGo]
  rw [hhi]
  dsimp only [Option.bind]
  rw [if_pos (show 0xd800 ≤ v ∧ v < 0xdc00 from And.intro hv1 hv2),
    if_pos (show ('\\' : Char) = '\\' ∧ ('u' : Char) = 'u' from ⟨rfl, rfl⟩), hlo]
  dsimp only [Option.bind]
  rw [if_pos (show 0xdc00 ≤ w ∧ w < 0xe000 from And.intro hw1 hw2), hT]
  rfl

set_option maxHeartbeats 1000000 in
/-- The fueled `py_scanstring` loop inverts the `ensure_ascii` escaping,
character by character, consuming through the closing quote. -/
theorem parseStringRestF_escape : ∀ (l : List Char) (fuel : Nat) (rest : List Char),
    l.length < fuel →
    parseStringRestF fuel (l.flatMap escChar ++ '"' :: rest) = some (l, rest) := by
  intro l
  induction l with
  | nil =>
    intro fuel rest hf
    obtain ⟨f, rfl⟩ : ∃ f, fuel = f + 1 := ⟨fuel - 1, by omega⟩
    simp only [List.flatMap_nil, List.nil_append, parseStringRestF]
    dsimp only [parseStringGo]
    rw [if_pos rfl]
  | cons c l ih =>
    intro fuel rest hf
    obtain ⟨f, rfl⟩ : ∃ f, fuel = f + 1 := ⟨fuel - 1, by omega⟩
    have hT := ih f rest (by simpa using Nat.lt_of_succ_lt_succ hf)
    simp only [List.flatMap_cons, List.append_assoc, parseStringRestF]
    by_cases h1 : c = '"'
    · subst h1
      rw [show escChar '"' = ['\\', '"'] from rfl]
      simp only [List.cons_append, List.nil_append]
      dsimp only [parseStringGo]
      rw [hT]
      rfl
    · by_cases h2 : c = '\\'
      · subst h2
        rw [show escChar '\\' = ['\\', '\\'] from rfl]
        simp only [List.cons_append, List.nil_append]
        dsimp only [parseStringGo]
        rw [hT]
        rfl
      · by_cases h3 : 0x20 ≤ c.toNat ∧ c.toNat ≤ 0x7e
        · rw [show escChar c = [c] by rw [escChar, if_neg h1, if_neg h2, if_pos h3]]
          rw [List.singleton_append]
          dsimp only [parseStringGo]
          rw [if_neg h1, if_neg h2, if_neg (show ¬c.toNat < 0x20 by omega), hT]
          rfl
        · by_cases h4 : c = '\x08'
          · subst h4
            rw [show escChar '\x08' = ['\\', 'b'] from rfl]
            simp only [List.cons_append, List.nil_append]
            dsimp only [parseStringGo]
            rw [hT]
            rfl
          · by_cases h5 : c = '\x09'
            · subst h5
              rw [show escChar '\x09' = ['\\', 't'] from rfl]
              simp only [List.cons_append, List.nil_append]
              dsimp only [parseStringGo]
              rw [hT]
              rfl
            · by_cases h6 : c = '\x0a'
              · subst h6
                rw [show escChar '\x0a' = ['\\', 'n'] from rfl]
                simp only [List.cons_append, List.nil_append]
                dsimp only [parseStringGo]
                rw [hT]
                rfl
              · by_cases h7 : c = '\x0c'
                · subst h7
                  rw [show escChar '\x0c' = ['\\', 'f'] from rfl]
                  simp only [List.cons_append, List.nil_append]
                  dsimp only [parseStringGo]
                  rw [hT]
                  rfl
                · by_cases h8 : c = '\x0d'
                  · subst h8
                    rw [show escChar '\x0d' = ['\\', 'r'] from rfl]
                    simp only [List.cons_append, List.nil_append]
                    dsimp only [parseStringGo]
                    rw [hT]
                    rfl
                  · have hval := char_toNat_valid c
                    by_cases h9 : c.toNat < 0x10000
                    · have hesc : escChar c = uEscape4 c.toNat := by
                        rw [escChar, if_neg h1, if_neg h2, if_neg h3, if_neg h4,
                          if_neg h5, if_neg h6, if_neg h7, if_neg h8, if_pos h9]
                      have hhex := @hex4_hexDigitChars
                        (c.toNat / 4096 % 16) (c.toNat / 256 % 16)
                        (c.toNat / 16 % 16) (c.toNat % 16)
                        (by omega) (by omega) (by omega) (by omega)
                      have harith : ((c.toNat / 4096 % 16 * 16 + c.toNat / 256 % 16) * 16 +
                          c.toNat / 16 % 16) * 16 + c.toNat % 16 = c.toNat := by omega
                      rw [harith] at hhex
                      rw [hesc, uEscape4]
                      simp only [List.cons_append, List.nil_append]
                      dsimp only [parseStringGo]
                      rw [hhex]
                      dsimp only [Option.bind]
                      rw [if_neg (show ¬(0xd800 ≤ c.toNat ∧ c.toNat < 0xdc00) by
                            rcases hval with h | h <;> omega),
                        if_neg (show ¬(0xdc00 ≤ c.toNat ∧ c.toNat < 0xe000) by
                            rcases hval with h | h <;> omega),
                        hT, Char.ofNat_toNat]
                      rfl
                    · have hesc : escChar c =
                          uEscape4 (0xd800 + (c.toNat - 0x10000) / 0x400) ++
                          uEscape4 (0xdc00 + (c.toNat - 0x10000) % 0x400) := by
                        rw [escChar, if_neg h1, if_neg h2, if_neg h3, if_neg h4,
                          if_neg h5, if_neg h6, if_neg h7, if_neg h8, if_neg h9]
                      have hhi := @hex4_hexDigitChars
                        ((0xd800 + (c.toNat - 0x10000) / 0x400) / 4096 % 16)
                        ((0xd800 + (c.toNat - 0x10000) / 0x400) / 256 % 16)
                        ((0xd800 + (c.toNat - 0x10000) / 0x400) / 16 % 16)
                        ((0xd800 + (c.toNat - 0x10000) / 0x400) % 16)
                        (by omega) (by omega) (by omega) (by omega)
                      have hhival : (((0xd800 + (c.toNat - 0x10000) / 0x400) / 4096 % 16 * 16 +
                          (0xd800 + (c.toNat - 0x10000) / 0x400) / 256 % 16) * 16 +
                          (0xd800 + (c.toNat - 0x10000) / 0x400) / 16 % 16) * 16 +
                          (0xd800 + (c.toNat - 0x10000) / 0x400) % 16 =
                          0xd800 + (c.toNat - 0x10000) / 0x400 := by omega
                      rw [hhival] at hhi
                      have hlo := @hex4_hexDigitChars
                        ((0xdc00 + (c.toNat - 0x10000) % 0x400) / 4096 % 16)
                        ((0xdc00 + (c.toNat - 0x10000) % 0x400) / 256 % 16)
                        ((0xdc00 + (c.toNat - 0x10000) % 0x400) / 16 % 16)
                        ((0xdc00 + (c.toNat - 0x10000) % 0x400) % 16)
                        (by omega) (by omega) (by omega) (by omega)
                      have hloval : (((0xdc00 + (c.toNat - 0x10000) % 0x400) / 4096 % 16 * 16 +
                          (0xdc00 + (c.toNat - 0x10000) % 0x400) / 256 % 16) * 16 +
                          (0xdc00 + (c.toNat - 0x10000) % 0x400) / 16 % 16) * 16 +
                          (0xdc00 + (c.toNat - 0x10000) % 0x400) % 16 =
                          0xdc00 + (c.toNat - 0x10000) % 0x400 := by omega
                      rw [hloval] at hlo
                      have hcomb : 0x10000 +
                          (0xd800 + (c.toNat - 0x10000) / 0x400 - 0xd800) * 0x400 +
                          (0xdc00 + (c.toNat - 0x10000) % 0x400 - 0xdc00) = c.toNat := by
                        omega
                      rw [hesc, uEscape4, uEscape4]
                      simp only [List.cons_append, List.nil_append, List.append_assoc]
                      rw [parseStringGo_astral _ _ _ _ _ _ _ _ _ _ _ hhi hlo
                          (by omega) (by rcases hval with h | h <;> omega)
                          (by omega) (by omega) _ _ _ hT,
                        hcomb, Char.ofNat_toNat]

/-- `py_scanstring` (with its internal length fuel) inverts the escaping. -/
theorem parseStringRest_escape (l rest : List Char) :
    parseStringRest (l.flatMap escChar ++ '"' :: rest) = some (l, rest) := by
  have hlen := flatMap_escChar_length l
  apply parseStringRestF_escape
  simp only [List.length_append, List.length_cons]
  omega

theorem skipWs_cons (c : Char) (r : List Char) (h : isWs c = false) :
    skipWs (c :: r) = c :: r := by
  simp [skipWs, h]

/-- A separator continuation starts with nothing a number token could
absorb. -/
theorem sepHead_num (rest : List Char) (h : SepHead rest) :
    ∀ c ∈ rest.head?, c.isDigit = false ∧ c ≠ '.' ∧ c ≠ 'e' ∧ c ≠ 'E' := by
  intro c hc
  cases rest with
  | nil => cases hc
  | cons a r =>
    simp only [List.head?_cons, Option.mem_def, Option.some.injEq] at hc
    subst hc
    rcases h with h | h | h <;> subst h <;>
      exact ⟨by decide, by decide, by decide, by decide⟩

theorem parseValGo_null
    (items : Nat → List Char → Option (List PyVal × List Char))
    (pairs : Nat → List Char → Option (List (String × PyVal) × List Char))
    (rest : List Char) :
    parseValGo items pairs ('n' :: 'u' :: 'l' :: 'l' :: rest) =
      some (.none, rest) := by
  dsimp only [parseValGo]
  rw [skipWs_cons _ _ (by decide)]
  rfl

theorem parseValGo_true
    (items : Nat → List Char → Option (List PyVal × List Char))
    (pairs : Nat → List Char → Option (List (String × PyVal) × List Char))
    (rest : List Char) :
    parseValGo items pairs ('t' :: 'r' :: 'u' :: 'e' :: rest) =
      some (.bool true, rest) := by
  dsimp only [parseValGo]
  rw [skipWs_cons _ _ (by decide)]
  rfl

theorem parseValGo_false
    (items : Nat → List Char → Option (List PyVal × List Char))
    (pairs : Nat → List Char → Option (List (String × PyVal) × List Char))
    (rest : List Char) :
    parseValGo items pairs ('f' :: 'a' :: 'l' :: 's' :: 'e' :: rest) =
      some (.bool false, rest) := by
  dsimp only [parseValGo]
  rw [skipWs_cons _ _ (by decide)]
  rfl

theorem parseValGo_str
    (items : Nat → List Char → Option (List PyVal × List Char))
    (pairs : Nat → List Char → Option (List (String × PyVal) × List Char))
    (l rest : List Char) :
    parseValGo items pairs ('"' :: (l.flatMap escChar ++ '"' :: rest)) =
      some (.str (String.mk l), rest) := by
  dsimp only [parseValGo]
  rw [skipWs_cons _ _ (by decide)]
  dsimp only []
  rw [if_neg (by decide), if_neg (by decide), if_neg (by decide), if_pos rfl,
    parseStringRest_escape]
  rfl

theorem parseValGo_num
    (items : Nat → List Char → Option (List PyVal × List Char))
    (pairs : Nat → List Char → Option (List (String × PyVal) × List Char))
    (i : Int) (rest : List Char) (hrest : SepHead rest) :
    parseValGo items pairs (renderInt i ++ rest) = some (.int i, rest) := by
  have hnum := parseNum_renderInt i rest (sepHead_num rest hrest)
  by_cases hneg : i < 0
  · rw [renderInt, if_pos hneg, List.cons_append] at hnum ⊢
    dsimp only [parseValGo]
    rw [skipWs_cons _ _ (by decide)]
    dsimp only []
    rw [if_neg (by decide), if_neg (by decide), if_neg (by decide),
      if_neg (by decide), if_neg (by decide), if_neg (by decide)]
    exact hnum
  · obtain ⟨c, cs, hc, hdig⟩ := renderNat_head i.toNat
    have hne := isDigit_ne_tokens c hdig
    rw [renderInt, if_neg hneg, hc, List.cons_append] at hnum ⊢
    dsimp only [parseValGo]
    rw [skipWs_cons _ _ hne.2.2.2.2.2.2.2]
    dsimp only []
    rw [if_neg hne.1, if_neg hne.2.1, if_neg hne.2.2.1, if_neg hne.2.2.2.1,
      if_neg hne.2.2.2.2.1, if_neg hne.2.2.2.2.2.1]
    exact hnum

theorem parseValGo_listEmpty
    (items : Nat → List Char → Option (List PyVal × List Char))
    (pairs : Nat → List Char → Option (List (String × PyVal) × List Char))
    (rest : List Char) :
    parseValGo items pairs ('[' :: ']' :: rest) = some (.list [], rest) := by
  dsimp only [parseValGo]
  rw [skipWs_cons _ _ (show isWs '[' = false by decide)]
  rfl

theorem parseValGo_dictEmpty
    (items : Nat → List Char → Option (List PyVal × List Char))
    (pairs : Nat → List Char → Option (List (String × PyVal) × List Char))
    (rest : List Char) :
    parseValGo items pairs ('\x7b' :: '\x7d' :: rest) = some (.dict [], rest) := by
  dsimp only [parseValGo]
  rw [skipWs_cons _ _ (show isWs '\x7b' = false by decide)]
  rfl

theorem parseValGo_list
    (items : Nat → List Char → Option (List PyVal × List Char))
    (pairs : Nat → List Char → Option (List (String × PyVal) × List Char))
    (c2 : Char) (r2 : List Char) (hws : isWs c2 = false) (hc2 : ¬c2 = ']')
    (xs : List PyVal) (rest : List Char)
    (hitems : items ((c2 :: r2).length + 1) (c2 :: r2) = some (xs, rest)) :
    parseValGo items pairs ('[' :: c2 :: r2) = some (.list xs, rest) := by
  dsimp only [parseValGo]
  rw [skipWs_cons _ _ (show isWs '[' = false by decide)]
  dsimp only []
  rw [if_neg (by decide), if_neg (by decide), if_neg (by decide),
    if_neg (by decide), if_pos rfl, skipWs_cons _ _ hws]
  dsimp only []
  rw [if_neg hc2, hitems]
  rfl

theorem parseValGo_dict
    (items : Nat → List Char → Option (List PyVal × List Char))
    (pairs : Nat → List Char → Option (List (String × PyVal) × List Char))
    (c2 : Char) (r2 : List Char) (hws : isWs c2 = false) (hc2 : ¬c2 = '\x7d')
    (kvs : List (String × PyVal)) (rest : List Char)
    (hpairs : pairs ((c2 :: r2).length + 1) (c2 :: r2) = some (kvs, rest)) :
    parseValGo items pairs ('\x7b' :: c2 :: r2) = some (.dict kvs, rest) := by
  dsimp only [parseValGo]
  rw [skipWs_cons _ _ (show isWs '\x7b' = false by decide)]
  dsimp only []
  rw [if_neg (by decide), if_neg (by decide), if_neg (by decide),
    if_neg (by decide), if_neg (by decide), if_pos rfl, skipWs_cons _ _ hws]
  dsimp only []
  rw [if_neg hc2, hpairs]
  rfl

/-- A rendered value starts with a non-whitespace character that is not a
closing bracket. -/
theorem renderVal_head : ∀ (x : PyVal) (out : List Char), renderVal x = some out →
    ∃ c cs, out = c :: cs ∧ isWs c = false ∧ c ≠ ']' ∧ c ≠ '\x7d' := by
  intro x out h
  match x with
  | .none =>
    simp only [renderVal, Option.some.injEq] at h
    exact ⟨'n', _, h.symm, by decide, by decide, by decide⟩
  | .bool true =>
    simp only [renderVal, Option.some.injEq] at h
    exact ⟨'t', _, h.symm, by decide, by decide, by decide⟩
  | .bool false =>
    simp only [renderVal, Option.some.injEq] at h
    exact ⟨'f', _, h.symm, by decide, by decide, by decide⟩
  | .int i =>
    simp only [renderVal, Option.some.injEq] at h
    by_cases hneg : i < 0
    · exact ⟨'-', _, by rw [← h, renderInt, if_pos hneg], by decide, by decide,
        by decide⟩
    · obtain ⟨c, cs, hc, hdig⟩ := renderNat_head i.toNat
      have hne : ∀ d : Char, d.isDigit = false → c ≠ d := by
        intro d hd hcd
        subst hcd
        rw [hdig] at hd
        cases hd
      refine ⟨c, cs, by rw [← h, renderInt, if_neg hneg, hc], ?_, hne ']' (by decide),
        hne '\x7d' (by decide)⟩
      exact (isDigit_ne_tokens c hdig).2.2.2.2.2.2.2
  | .str s =>
    simp only [renderVal, Option.some.injEq] at h
    exact ⟨'"', s.data.flatMap escChar ++ ['"'], by rw [← h, renderString, List.cons_append],
      by decide, by decide, by decide⟩
  | .list xs =>
    simp only [renderVal] at h
    cases hri : renderItems xs with
    | none => rw [hri] at h; cases h
    | some body =>
      rw [hri] at h
      exact ⟨'[', _, by simpa using h.symm, by decide, by decide, by decide⟩
  | .tuple xs =>
    simp only [renderVal] at h
    cases hri : renderItems xs with
    | none => rw [hri] at h; cases h
    | some body =>
      rw [hri] at h
      exact ⟨'[', _, by simpa using h.symm, by decide, by decide, by decide⟩
  | .dict kvs =>
    simp only [renderVal] at h
    cases hri : renderPairs kvs with
    | none => rw [hri] at h; cases h
    | some body =>
      rw [hri] at h
      exact ⟨'\x7b', _, by simpa using h.symm, by decide, by decide, by decide⟩
  | .data f n d => rw [renderVal] at h; cases h
  | .dumper r => rw [renderVal] at h; cases h
  | .obj i => rw [renderVal] at h; cases h

/-- A non-empty rendered element list starts with its first element's
rendering. -/
theorem renderItems_cons (x : PyVal) (t : List PyVal) (body : List Char)
    (h : renderItems (x :: t) = some body) :
    ∃ cx r, renderVal x = some cx ∧ body = cx ++ r := by
  cases t with
  | nil =>
    refine ⟨body, [], ?_, by simp⟩
    simpa [renderItems] using h
  | cons y t' =>
    simp only [renderItems] at h
    cases hcx : renderVal x with
    | none => rw [hcx] at h; simp at h
    | some cx =>
      rw [hcx] at h
      cases hr : renderItems (y :: t') with
      | none => rw [hr] at h; simp at h
      | some r =>
        rw [hr] at h
        simp only [Option.bind_eq_bind, Option.some_bind, Option.pure_def, Option.some.injEq] at h
        exact ⟨cx, ',' :: r, rfl, h.symm⟩

/-- A non-empty rendered member list starts with a quote. -/
theorem renderPairs_head (a : String × PyVal) (t : List (String × PyVal))
    (body : List Char) (h : renderPairs (a :: t) = some body) :
    ∃ r, body = '"' :: r := by
  obtain ⟨k, v⟩ := a
  cases t with
  | nil =>
    simp only [renderPairs] at h
    cases hcv : renderVal v with
    | none => rw [hcv] at h; simp at h
    | some cv =>
      rw [hcv] at h
      simp only [Option.bind_eq_bind, Option.some_bind, Option.pure_def, Option.some.injEq] at h
      exact ⟨k.data.flatMap escChar ++ '"' :: ':' :: cv,
        by rw [← h, renderString]; simp [List.append_assoc]⟩
  | cons p t' =>
    simp only [renderPairs] at h
    cases hcv : renderVal v with
    | none => rw [hcv] at h; simp at h
    | some cv =>
      rw [hcv] at h
      cases hr : renderPairs (p :: t') with
      | none => rw [hr] at h; simp at h
      | some r =>
        rw [hr] at h
        simp only [Option.bind_eq_bind, Option.some_bind, Option.pure_def, Option.some.injEq] at h
        exact ⟨k.data.flatMap escChar ++ '"' :: ':' :: (cv ++ ',' :: r),
          by rw [← h, renderString]; simp [List.append_assoc]⟩

/-- Each element's rendering is no longer than the whole rendered element
list. -/
theorem renderItems_elem_length : ∀ (xs : List PyVal) (body : List Char),
    renderItems xs = some body →
    ∀ x ∈ xs, ∀ out, renderVal x = some out → out.length ≤ body.length := by
  intro xs
  induction xs with
  | nil => intro body _ x hx; cases hx
  | cons a t ih =>
    intro body hb x hx out hout
    cases t with
    | nil =>
      rcases List.mem_cons.1 hx with rfl | hx
      · have hba : renderVal x = some body := by simpa [renderItems] using hb
        rw [hout] at hba
        cases hba
        exact le_rfl
      · cases hx
    | cons y t' =>
      simp only [renderItems] at hb
      cases hca : renderVal a with
      | none => rw [hca] at hb; simp at hb
      | some ca =>
        rw [hca] at hb
        cases hr : renderItems (y :: t') with
        | none => rw [hr] at hb; simp at hb
        | some r =>
          rw [hr] at hb
          simp only [Option.bind_eq_bind, Option.some_bind, Option.pure_def, Option.some.injEq] at hb
          subst hb
          rcases List.mem_cons.1 hx with rfl | hx
          · rw [hout] at hca
            cases hca
            simp
          · have := ih r hr x hx out hout
            simp only [List.length_append, List.length_cons]
            omega

/-- Each member value's rendering is no longer than the whole rendered
member list. -/
theorem renderPairs_elem_length : ∀ (kvs : List (String × PyVal)) (body : List Char),
    renderPairs kvs = some body →
    ∀ kv ∈ kvs, ∀ out, renderVal kv.2 = some out → out.length ≤ body.length := by
  intro kvs
  induction kvs with
  | nil => intro body _ kv hkv; cases hkv
  | cons a t ih =>
    obtain ⟨k, v⟩ := a
    intro body hb kv hkv out hout
    cases t with
    | nil =>
      rcases List.mem_cons.1 hkv with rfl | hkv
      · simp only [renderPairs] at hb
        rw [hout] at hb
        simp only [Option.bind_eq_bind, Option.some_bind, Option.pure_def, Option.some.injEq] at hb
        subst hb
        simp only [List.length_append, List.length_cons]
        omega
      · cases hkv
    | cons p t' =>
      simp only [renderPairs] at hb
      cases hcv : renderVal v with
      | none => rw [hcv] at hb; simp at hb
      | some cv =>
        rw [hcv] at hb
        cases hr : renderPairs (p :: t') with
        | none => rw [hr] at hb; simp at hb
        | some r =>
          rw [hr] at hb
          simp only [Option.bind_eq_bind, Option.some_bind, Option.pure_def, Option.some.injEq] at hb
          subst hb
          rcases List.mem_cons.1 hkv with rfl | hkv
          · rw [hout] at hcv
            cases hcv
            simp only [List.length_append, List.length_cons]
            omega
          · have := ih r hr kv hkv out hout
            simp only [List.length_append, List.length_cons]
            omega

/-- The fueled element loop inverts `renderItems` for a non-empty element
list, given a parser that inverts `renderVal` on each element. -/
theorem parseItemsF_chain : ∀ (xs : List PyVal) (body : List Char),
    xs ≠ [] → renderItems xs = some body →
    ∀ (val : List Char → Option (PyVal × List Char)),
    (∀ x ∈ xs, ∀ out, renderVal x = some out → ∀ r, SepHead r →
      val (out ++ r) = some (x, r)) →
    ∀ (rest : List Char) (lfuel : Nat), body.length < lfuel →
    parseItemsF val lfuel (body ++ ']' :: rest) = some (xs, rest) := by
  intro xs
  induction xs with
  | nil => intro body h; exact absurd rfl h
  | cons a t ih =>
    intro body _ hb val hval rest lfuel hlf
    obtain ⟨lf, rfl⟩ : ∃ lf, lfuel = lf + 1 := ⟨lfuel - 1, by omega⟩
    simp only [parseItemsF]
    cases t with
    | nil =>
      have hba : renderVal a = some body := by simpa [renderItems] using hb
      dsimp only [parseItemsGo]
      rw [hval a (by simp) body hba (']' :: rest) (by simp [SepHead])]
      dsimp only [Option.bind]
      rw [skipWs_cons _ _ (by decide)]
      dsimp only []
      rw [if_neg (by decide), if_pos rfl]
    | cons b t' =>
      simp only [renderItems] at hb
      cases hca : renderVal a with
      | none => rw [hca] at hb; simp at hb
      | some ca =>
        rw [hca] at hb
        cases hr : renderItems (b :: t') with
        | none => rw [hr] at hb; simp at hb
        | some r =>
          rw [hr] at hb
          simp only [Option.bind_eq_bind, Option.some_bind, Option.pure_def,
            Option.some.injEq] at hb
          subst hb
          simp only [List.append_assoc, List.cons_append]
          dsimp only [parseItemsGo]
          rw [hval a (by simp) ca hca (',' :: (r ++ ']' :: rest)) (by simp [SepHead])]
          dsimp only [Option.bind]
          rw [skipWs_cons _ _ (by decide)]
          dsimp only []
          rw [if_pos rfl,
            ih r (by simp) hr val
              (fun z hz outz houtz rz hrz => hval z (by simp [hz]) outz houtz rz hrz)
              rest lf (by simp only [List.length_append, List.length_cons] at hlf ⊢; omega)]
          rfl

/-- The fueled member loop inverts `renderPairs` for a non-empty member
list, given a parser that inverts `renderVal` on each member value. -/
theorem parsePairsF_chain : ∀ (kvs : List (String × PyVal)) (body : List Char),
    kvs ≠ [] → renderPairs kvs = some body →
    ∀ (val : List Char → Option (PyVal × List Char)),
    (∀ kv ∈ kvs, ∀ out, renderVal kv.2 = some out → ∀ r, SepHead r →
      val (out ++ r) = some (kv.2, r)) →
    ∀ (rest : List Char) (lfuel : Nat), body.length < lfuel →
    parsePairsF val lfuel (body ++ '\x7d' :: rest) = some (kvs, rest) := by
  intro kvs
  induction kvs with
  | nil => intro body h; exact absurd rfl h
  | cons a t ih =>
    obtain ⟨k, v⟩ := a
    intro body _ hb val hval rest lfuel hlf
    obtain ⟨lf, rfl⟩ : ∃ lf, lfuel = lf + 1 := ⟨lfuel - 1, by omega⟩
    simp only [parsePairsF]
    cases t with
    | nil =>
      simp only [renderPairs] at hb
      cases hcv : renderVal v with
      | none => rw [hcv] at hb; simp at hb
      | some cv =>
        rw [hcv] at hb
        simp only [Option.bind_eq_bind, Option.some_bind, Option.pure_def,
          Option.some.injEq] at hb
        subst hb
        rw [renderString]
        simp only [List.append_assoc, List.cons_append, List.singleton_append,
          List.nil_append]
        dsimp only [parsePairsGo]
        rw [skipWs_cons _ _ (by decide)]
        dsimp only []
        rw [if_pos rfl, parseStringRest_escape]
        dsimp only [Option.bind]
        rw [skipWs_cons _ _ (by decide)]
        dsimp only []
        rw [if_pos rfl, hval (k, v) (by simp) cv hcv ('\x7d' :: rest) (by simp [SepHead])]
        dsimp only [Option.bind]
        rw [skipWs_cons _ _ (by decide)]
        dsimp only []
        rw [if_neg (by decide), if_pos rfl]
    | cons p t' =>
      simp only [renderPairs] at hb
      cases hcv : renderVal v with
      | none => rw [hcv] at hb; simp at hb
      | some cv =>
        rw [hcv] at hb
        cases hr : renderPairs (p :: t') with
        | none => rw [hr] at hb; simp at hb
        | some r =>
          rw [hr] at hb
          simp only [Option.bind_eq_bind, Option.some_bind, Option.pure_def,
            Option.some.injEq] at hb
          subst hb
          rw [renderString]
          simp only [List.append_assoc, List.cons_append, List.singleton_append,
            List.nil_append]
          dsimp only [parsePairsGo]
          rw [skipWs_cons _ _ (by decide)]
          dsimp only []
          rw [if_pos rfl, parseStringRest_escape]
          dsimp only [Option.bind]
          rw [skipWs_cons _ _ (by decide)]
          dsimp only []
          rw [if_pos rfl,
            hval (k, v) (by simp) cv hcv (',' :: (r ++ '\x7d' :: rest)) (by simp [SepHead])]
          dsimp only [Option.bind]
          rw [skipWs_cons _ _ (by decide)]
          dsimp only []
          rw [if_pos rfl,
            ih r (by simp) hr val
              (fun z hz outz houtz rz hrz => hval z (by simp [hz]) outz houtz rz hrz)
              rest lf
              (by simp only [List.length_append, List.length_cons] at hlf ⊢; omega)]
          rfl

/-- The fueled value parser inverts the serializer on the JSON-like
fragment: any depth fuel exceeding the rendered length suffices, and any
separator may follow. -/
theorem parseVal_render : ∀ (x : PyVal), JsonLike x →
    ∀ (out : List Char), renderVal x = some out →
    ∀ (dfuel : Nat), out.length ≤ dfuel →
    ∀ (rest : List Char), SepHead rest →
    parseVal (dfuel + 1) (out ++ rest) = some (x, rest) := by
  intro x hx
  induction hx with
  | none =>
    intro out hout dfuel _ rest _
    simp only [renderVal, Option.some.injEq] at hout
    subst hout
    simp only [parseVal, List.cons_append, List.nil_append]
    exact parseValGo_null _ _ rest
  | bool b =>
    intro out hout dfuel _ rest _
    cases b <;>
      (simp only [renderVal, Option.some.injEq] at hout
       subst hout
       simp only [parseVal, List.cons_append, List.nil_append])
    · exact parseValGo_false _ _ rest
    · exact parseValGo_true _ _ rest
  | int n =>
    intro out hout dfuel _ rest hrest
    simp only [renderVal, Option.some.injEq] at hout
    subst hout
    simp only [parseVal]
    exact parseValGo_num _ _ n rest hrest
  | str s =>
    intro out hout dfuel _ rest hrest
    simp only [renderVal, Option.some.injEq] at hout
    subst hout
    simp only [parseVal, renderString, List.cons_append, List.append_assoc,
      List.singleton_append]
    exact parseValGo_str _ _ s.data rest
  | list xs hmem ih =>
    intro out hout dfuel hdf rest hrest
    cases xs with
    | nil =>
      have hnil : out = ['[', ']'] := by
        simp only [renderVal, renderItems, Option.bind_eq_bind, Option.some_bind,
          Option.pure_def, Option.some.injEq] at hout
        exact hout.symm
      subst hnil
      simp only [parseVal, List.cons_append, List.nil_append]
      exact parseValGo_listEmpty _ _ rest
    | cons a t =>
      have hb : ∃ body, renderItems (a :: t) = some body ∧
          out = ('[' :: body) ++ [']'] := by
        simp only [renderVal] at hout
        cases hri : renderItems (a :: t) with
        | none => rw [hri] at hout; simp at hout
        | some body =>
          rw [hri] at hout
          simp only [Option.bind_eq_bind, Option.some_bind, Option.pure_def,
            Option.some.injEq] at hout
          exact ⟨body, rfl, hout.symm⟩
      obtain ⟨body, hri, rfl⟩ := hb
      simp only [List.length_append, List.length_cons, List.length_nil] at hdf
      obtain ⟨df, rfl⟩ : ∃ df, dfuel = df + 1 := ⟨dfuel - 1, by omega⟩
      obtain ⟨cx, r', hcx, hbody⟩ := renderItems_cons a t body hri
      obtain ⟨c, cs, hc, hws, hcrb, _⟩ := renderVal_head a cx hcx
      have hitems : parseItemsF (parseVal (df + 1))
          ((body ++ ']' :: rest).length + 1) (body ++ ']' :: rest) =
          some (a :: t, rest) := by
        refine parseItemsF_chain (a :: t) body (by simp) hri (parseVal (df + 1))
          (fun z hz outz houtz rz hrz => ?_) rest _ (by simp; omega)
        have hlen : outz.length ≤ body.length :=
          renderItems_elem_length _ _ hri z hz outz houtz
        exact ih z hz outz houtz df (by omega) rz hrz
      have hshape : ('[' :: body) ++ [']'] ++ rest = '[' :: c :: (cs ++ (r' ++ ']' :: rest)) := by
        rw [hbody, hc]
        simp [List.append_assoc]
      rw [parseVal, hshape]
      refine parseValGo_list _ _ c _ hws hcrb (a :: t) rest ?_
      have hback : c :: (cs ++ (r' ++ ']' :: rest)) = body ++ ']' :: rest := by
        rw [hbody, hc]
        simp [List.append_assoc]
      rw [hback]
      exact hitems
  | dict kvs hnd hmem ih =>
    intro out hout dfuel hdf rest hrest
    cases kvs with
    | nil =>
      have hnil : out = ['\x7b', '\x7d'] := by
        simp only [renderVal, renderPairs, Option.bind_eq_bind, Option.some_bind,
          Option.pure_def, Option.some.injEq] at hout
        exact hout.symm
      subst hnil
      simp only [parseVal, List.cons_append, List.nil_append]
      exact parseValGo_dictEmpty _ _ rest
    | cons a t =>
      have hb : ∃ body, renderPairs (a :: t) = some body ∧
          out = ('\x7b' :: body) ++ ['\x7d'] := by
        simp only [renderVal] at hout
        cases hrp : renderPairs (a :: t) with
        | none => rw [hrp] at hout; simp at hout
        | some body =>
          rw [hrp] at hout
          simp only [Option.bind_eq_bind, Option.some_bind, Option.pure_def,
            Option.some.injEq] at hout
          exact ⟨body, rfl, hout.symm⟩
      obtain ⟨body, hrp, rfl⟩ := hb
      simp only [List.length_append, List.length_cons, List.length_nil] at hdf
      obtain ⟨df, rfl⟩ : ∃ df, dfuel = df + 1 := ⟨dfuel - 1, by omega⟩
      obtain ⟨r', hbody⟩ := renderPairs_head a t body hrp
      have hpairs : parsePairsF (parseVal (df + 1))
          ((body ++ '\x7d' :: rest).length + 1) (body ++ '\x7d' :: rest) =
          some (a :: t, rest) := by
        refine parsePairsF_chain (a :: t) body (by simp) hrp (parseVal (df + 1))
          (fun kv hkv outz houtz rz hrz => ?_) rest _ (by simp; omega)
        have hlen : outz.length ≤ body.length :=
          renderPairs_elem_length _ _ hrp kv hkv outz houtz
        exact ih kv hkv outz houtz df (by omega) rz hrz
      have hshape : ('\x7b' :: body) ++ ['\x7d'] ++ rest =
          '\x7b' :: '"' :: (r' ++ ('\x7d' :: rest)) := by
        rw [hbody]
        simp [List.append_assoc]
      rw [parseVal, hshape]
      refine parseValGo_dict _ _ '"' _ (by decide) (by decide) (a :: t) rest ?_
      have hback : '"' :: (r' ++ ('\x7d' :: rest)) = body ++ '\x7d' :: rest := by
        rw [hbody]
        simp [List.append_assoc]
      rw [hback]
      exact hpairs

/-- C8 counterexample: a tuple is a primitive container (`json.dumps`
serializes it as a JSON array), but `json.loads` returns a list, so the
round trip gives back a different value. -/
theorem c8_counterexample :
    marshal (.tuple [.int 1]) = some "[1]" ∧
    unmarshal "[1]" = some (.list [.int 1]) ∧
    PyVal.list [.int 1] ≠ PyVal.tuple [.int 1] := by
  refine ⟨?_, ?_, fun h => PyVal.noConfusion h⟩
  · simp only [marshal, renderVal, renderItems]
    rfl
  · rfl

/-- C8 (amended): for every value in the JSON-representable fragment
without tuples — `None`, booleans, ints, strings, lists, and string-keyed
mappings with distinct keys — a successful `marshal` followed by
`unmarshal` returns the original value. -/
theorem c8_roundtrip (x : PyVal) (hx : JsonLike x) (s : String)
    (hs : marshal x = some s) : unmarshal s = some x := by
  obtain ⟨out, hout, rfl⟩ : ∃ out, renderVal x = some out ∧ s = String.mk out := by
    cases hro : renderVal x with
    | none => rw [marshal, hro] at hs; cases hs
    | some out =>
      rw [marshal, hro] at hs
      exact ⟨out, rfl, by simpa using hs.symm⟩
  have hp := parseVal_render x hx out hout out.length le_rfl [] trivial
  rw [List.append_nil] at hp
  have hlen : (String.mk out).length = out.length := rfl
  have hdata : (String.mk out).data = out := rfl
  rw [unmarshal, hlen, hdata, hp]
  rfl

/-- Witness for C8 amended: a mapping holding a list of an int and a
string, and a null. -/
theorem c8_roundtrip_witness :
    unmarshal "\x7b\"a\":[1,\"x\"],\"b\":null\x7d" =
      some (.dict [("a", .list [.int 1, .str "x"]), ("b", .none)]) :=
  c8_roundtrip (.dict [("a", .list [.int 1, .str "x"]), ("b", .none)])
    (JsonLike.dict _ (by simp)
      (by
        intro kv hkv
        simp only [List.mem_cons, List.not_mem_nil, or_false] at hkv
        rcases hkv with rfl | rfl
        · exact JsonLike.list _ (by
            intro z hz
            simp only [List.mem_cons, List.not_mem_nil, or_false] at hz
            rcases hz with rfl | rfl
            · exact JsonLike.int 1
            · exact JsonLike.str "x")
        · exact JsonLike.none))
    _
    (by simp only [marshal, renderVal, renderItems, renderPairs]; rfl)

end Telesync
